import Mathlib

/-
Shallow embedding of the ledger core of the finance-manager backend
(expense splitting, settlements, balance derivation).

Sources embedded:
- internal/expense/expense.go : CreateExpense (validation + transactional write)
- internal/group/group.go     : CreateGroup, AddMember, GetBalances
- internal/settlement         : CreateSettlement
- migrations                  : table shapes

Monetary values are shopspring decimal.Decimal: arbitrary-precision decimals
whose Add, Sub, Equal, LessThan are exact rational operations, so amounts are
embedded as rationals. UUIDs are abstracted to naturals. Database reads that
can fail for connectivity reasons are modelled as succeeding; write failures
are modelled by an explicit oracle, since rejection/rollback behaviour is what
the specification constrains.
-/

namespace FinanceManager

abbrev UserId := Nat

abbrev GroupId := Nat

abbrev ExpenseId := Nat

/-- A row of the group_members table, primary key (group_id, user_id). -/
structure MemberRow where
  groupId : GroupId
  userId : UserId
deriving DecidableEq

/-- A row of the expenses table. -/
structure ExpenseRow where
  id : ExpenseId
  groupId : GroupId
  description : String
  totalAmount : ℚ
  paidBy : UserId
deriving DecidableEq

/-- A row of the expense_splits table, primary key (expense_id, user_id). -/
structure SplitRow where
  expenseId : ExpenseId
  userId : UserId
  amount : ℚ
deriving DecidableEq

/-- A row of the settlements table. -/
structure SettlementRow where
  groupId : GroupId
  fromUser : UserId
  toUser : UserId
  amount : ℚ
deriving DecidableEq

/-- A row of the groups table. -/
structure GroupRow where
  id : GroupId
  name : String
  createdBy : UserId
deriving DecidableEq

/-- The relational store. Lists record insertion order; the id counters model
fresh key generation for groups and expenses. -/
structure Store where
  users : List UserId
  groups : List GroupRow
  groupMembers : List MemberRow
  expenses : List ExpenseRow
  expenseSplits : List SplitRow
  settlements : List SettlementRow
  nextGroupId : GroupId
  nextExpenseId : ExpenseId
deriving DecidableEq

/-- The error kinds the handlers report (each corresponds to one c.JSON error
response in the Go code). -/
inductive ApiError where
  | invalidTotalFormat
  | nonPositiveTotal
  | notGroupMember
  | duplicateSplitUser
  | invalidSplitFormat
  | negativeSplitAmount
  | splitSumMismatch
  | splitUserNotMember
  | userNotFound
  | alreadyMember
  | nonPositiveAmount
  | fromUserNotMember
  | toUserNotMember
  | selfSettlement
  | txBeginFailed
  | headerInsertFailed
  | splitInsertFailed
  | settlementInsertFailed
  | commitFailed
deriving DecidableEq

/-- Membership lookup: SELECT EXISTS(SELECT 1 FROM group_members WHERE
group_id = $1 AND user_id = $2). The query appears inlined in the group and
settlement handlers and behind helpers.IsGroupMember in the expense handler. -/
def isGroupMember (s : Store) (g : GroupId) (u : UserId) : Bool :=
  s.groupMembers.any fun m => m.groupId == g && m.userId == u

/-- User existence lookup: SELECT EXISTS(SELECT 1 FROM users WHERE id = $1). -/
def userExists (s : Store) (u : UserId) : Bool :=
  s.users.any fun v => v == u

/-- CreateExpenseRequest: total_amount and split amounts arrive as decimal
strings; the Option is the outcome of decimal.NewFromString (none means the
string did not parse). -/
structure CreateExpenseRequest where
  groupId : GroupId
  description : String
  totalAmount : Option ℚ
  splits : List (UserId × Option ℚ)
deriving DecidableEq

/-- The per-split validation loop of CreateExpense: for each split in request
order it first checks for a duplicate user (the userIDs set), then parses the
amount, then rejects a negative amount, accumulating the parsed splits. -/
def splitLoop : List (UserId × Option ℚ) → List UserId → Except ApiError (List (UserId × ℚ))
  | [], _ => .ok []
  | (u, a?) :: rest, seen =>
    if u ∈ seen then .error .duplicateSplitUser
    else
      match a? with
      | none => .error .invalidSplitFormat
      | some a =>
        if a < 0 then .error .negativeSplitAmount
        else
          match splitLoop rest (u :: seen) with
          | .error e => .error e
          | .ok parsed => .ok ((u, a) :: parsed)

/-- The validation stage of CreateExpense, in source order: parse the total,
total > 0, requester membership, the split loop, exact sum equality
(decimal Equal), membership of every split user. No write happens here. -/
def validateExpense (s : Store) (requester : UserId) (req : CreateExpenseRequest) :
    Except ApiError (ℚ × List (UserId × ℚ)) :=
  match req.totalAmount with
  | none => .error .invalidTotalFormat
  | some total =>
    if total ≤ 0 then .error .nonPositiveTotal
    else if ¬ isGroupMember s req.groupId requester then .error .notGroupMember
    else
      match splitLoop req.splits [] with
      | .error e => .error e
      | .ok parsed =>
        if (parsed.map Prod.snd).sum ≠ total then .error .splitSumMismatch
        else if ¬ parsed.all (fun p => isGroupMember s req.groupId p.1) then
          .error .splitUserNotMember
        else .ok (total, parsed)

/-- Failure oracle for the transactional store: which of the inserts and the
commit fail (constraint violation, connection loss). -/
structure WriteOracle where
  beginFails : Bool
  headerFails : Bool
  splitFails : Nat → Bool
  commitFails : Bool

/-- The oracle of an undisturbed store: every write succeeds. -/
def allSucceed : WriteOracle :=
  ⟨false, false, fun _ => false, false⟩

/-- An open transaction: rows inserted but not yet committed. A rollback simply
discards it; only a commit publishes its rows to the store. -/
structure Tx where
  expenses : List ExpenseRow
  expenseSplits : List SplitRow

/-- COMMIT: append the pending rows of the transaction to the store. -/
def txCommit (s : Store) (t : Tx) : Store :=
  { s with expenses := s.expenses ++ t.expenses,
           expenseSplits := s.expenseSplits ++ t.expenseSplits }

/-- The split-insert loop inside the transaction; i indexes the split being
inserted and none signals a failed insert (the deferred Rollback then discards
the whole transaction). -/
def insertSplits (w : WriteOracle) (eid : ExpenseId) :
    List (UserId × ℚ) → Nat → Tx → Option Tx
  | [], _, t => some t
  | (u, a) :: rest, i, t =>
    if w.splitFails i then none
    else insertSplits w eid rest (i + 1)
      { t with expenseSplits := t.expenseSplits ++ [⟨eid, u, a⟩] }

/-- CreateExpense: the validation stage, then one transaction inserting the
expense header and one split row per participant, committed only when every
insert succeeds. paid_by is the authenticated requester. On any failure the
deferred Rollback leaves the store untouched. -/
def createExpense (s : Store) (requester : UserId) (req : CreateExpenseRequest)
    (w : WriteOracle) : Store × Except ApiError (ExpenseRow × List SplitRow) :=
  match validateExpense s requester req with
  | .error e => (s, .error e)
  | .ok (total, parsed) =>
    if w.beginFails then (s, .error .txBeginFailed)
    else if w.headerFails then (s, .error .headerInsertFailed)
    else
      let row : ExpenseRow := ⟨s.nextExpenseId, req.groupId, req.description, total, requester⟩
      match insertSplits w row.id parsed 0 ⟨[row], []⟩ with
      | none => (s, .error .splitInsertFailed)
      | some t =>
        if w.commitFails then (s, .error .commitFailed)
        else ({ txCommit s t with nextExpenseId := s.nextExpenseId + 1 },
              .ok (row, t.expenseSplits))

/-- CreateSettlementRequest: amount is bound as a decimal and checked by the
validator tag gt=0 before the handler-level checks run. -/
structure CreateSettlementRequest where
  groupId : GroupId
  fromUser : UserId
  toUser : UserId
  amount : ℚ
deriving DecidableEq

/-- CreateSettlement: validator (amount > 0), requester membership, membership
of from_user and of to_user, the self-settlement check, then one single-row
insert. -/
def createSettlement (s : Store) (requester : UserId) (req : CreateSettlementRequest)
    (insertFails : Bool) : Store × Except ApiError SettlementRow :=
  if req.amount ≤ 0 then (s, .error .nonPositiveAmount)
  else if ¬ isGroupMember s req.groupId requester then (s, .error .notGroupMember)
  else if ¬ isGroupMember s req.groupId req.fromUser then (s, .error .fromUserNotMember)
  else if ¬ isGroupMember s req.groupId req.toUser then (s, .error .toUserNotMember)
  else if req.fromUser = req.toUser then (s, .error .selfSettlement)
  else if insertFails then (s, .error .settlementInsertFailed)
  else
    let row : SettlementRow := ⟨req.groupId, req.fromUser, req.toUser, req.amount⟩
    ({ s with settlements := s.settlements ++ [row] }, .ok row)

/-- CreateGroup: inserts the group row and its creator as first member inside
one transaction. -/
def createGroup (s : Store) (creator : UserId) (name : String) : Store × GroupRow :=
  let g : GroupRow := ⟨s.nextGroupId, name, creator⟩
  ({ s with groups := s.groups ++ [g],
            groupMembers := s.groupMembers ++ [⟨g.id, creator⟩],
            nextGroupId := s.nextGroupId + 1 }, g)

/-- AddMember: the requester must be a member, the added user must exist and
must not already be a member; then one group_members insert. -/
def addMember (s : Store) (requester : UserId) (g : GroupId) (u : UserId) :
    Store × Except ApiError Unit :=
  if ¬ isGroupMember s g requester then (s, .error .notGroupMember)
  else if ¬ userExists s u then (s, .error .userNotFound)
  else if isGroupMember s g u then (s, .error .alreadyMember)
  else ({ s with groupMembers := s.groupMembers ++ [⟨g, u⟩] }, .ok ())

/-- Go map write members[u] = 0: overwrites when the key is present, appends a
fresh entry otherwise. -/
def goMapInsertZero (m : List (UserId × ℚ)) (u : UserId) : List (UserId × ℚ) :=
  if m.any fun p => p.1 == u then m.map fun p => if p.1 = u then (p.1, 0) else p
  else m ++ [(u, 0)]

/-- The guarded Go map update pattern of GetBalances, namely
if bal, ok := members[u]; ok then members[u] = f bal. When the key u is absent
the map is untouched. -/
def goMapAdjust (m : List (UserId × ℚ)) (u : UserId) (f : ℚ → ℚ) : List (UserId × ℚ) :=
  m.map fun p => if p.1 = u then (p.1, f p.2) else p

/-- Go map read members[u]. -/
def goMapLookup : List (UserId × ℚ) → UserId → Option ℚ
  | [], _ => none
  | p :: rest, u => if p.1 = u then some p.2 else goMapLookup rest u

/-- SELECT user_id FROM group_members WHERE group_id = $1. -/
def memberIds (s : Store) (g : GroupId) : List UserId :=
  (s.groupMembers.filter fun m => m.groupId == g).map MemberRow.userId

/-- Whether a split row is produced by the join of expense_splits with the
expenses of group g (JOIN expenses e ON es.expense_id = e.id WHERE
e.group_id = $1). -/
def splitInGroup (s : Store) (g : GroupId) (sp : SplitRow) : Bool :=
  s.expenses.any fun e => e.id == sp.expenseId && e.groupId == g

/-- First loop of GetBalances: members[uid] = 0 for every membership row of the
group. -/
def initMembersMap (s : Store) (g : GroupId) : List (UserId × ℚ) :=
  (memberIds s g).foldl goMapInsertZero []

/-- Second loop: each expense of the group credits its payer with the full
total, when the payer is a present key. -/
def applyExpenses (s : Store) (g : GroupId) (m : List (UserId × ℚ)) : List (UserId × ℚ) :=
  (s.expenses.filter fun e => e.groupId == g).foldl
    (fun m e => goMapAdjust m e.paidBy (· + e.totalAmount)) m

/-- Third loop: each split row joined against the expenses of the group debits
its user, when present. -/
def applySplits (s : Store) (g : GroupId) (m : List (UserId × ℚ)) : List (UserId × ℚ) :=
  (s.expenseSplits.filter (splitInGroup s g)).foldl
    (fun m sp => goMapAdjust m sp.userId (· - sp.amount)) m

/-- Fourth loop: each settlement of the group debits from_user and credits
to_user, each leg only when that key is present. -/
def applySettlements (s : Store) (g : GroupId) (m : List (UserId × ℚ)) : List (UserId × ℚ) :=
  (s.settlements.filter fun st => st.groupId == g).foldl
    (fun m st =>
      goMapAdjust (goMapAdjust m st.fromUser (· - st.amount)) st.toUser (· + st.amount)) m

/-- The members map that GetBalances builds, after its four loops. Every update
is guarded by key presence, so rows referencing users outside the map are
skipped. -/
def balancesMap (s : Store) (g : GroupId) : List (UserId × ℚ) :=
  applySettlements s g (applySplits s g (applyExpenses s g (initMembersMap s g)))

/-- GetBalances: membership check for the requester, three read-only scans
building the members map, then the map is emitted by ranging over a Go map.
The order argument stands for the iteration order the runtime chooses; it is
constrained (in the theorems) to enumerate exactly the map entries. -/
def getBalances (s : Store) (requester : UserId) (g : GroupId)
    (order : List (UserId × ℚ)) : Store × Except ApiError (List (UserId × ℚ)) :=
  if ¬ isGroupMember s g requester then (s, .error .notGroupMember)
  else (s, .ok order)

/-- The possible responses of GetBalances: the Go runtime may enumerate the
members map in any order, so any permutation of its entries may be emitted. -/
def getBalancesCanEmit (s : Store) (requester : UserId) (g : GroupId)
    (resp : Store × Except ApiError (List (UserId × ℚ))) : Prop :=
  ∃ order, order.Perm (balancesMap s g) ∧ resp = getBalances s requester g order

/-- One client write operation, bundled with the store failure behaviour it
encounters. Rejected or rolled-back operations leave the store unchanged. -/
inductive Op where
  | createGroup (requester : UserId) (name : String)
  | addMember (requester : UserId) (g : GroupId) (u : UserId)
  | createExpense (requester : UserId) (req : CreateExpenseRequest) (w : WriteOracle)
  | createSettlement (requester : UserId) (req : CreateSettlementRequest) (insertFails : Bool)

/-- The store effect of one operation. -/
def applyOp (s : Store) : Op → Store
  | .createGroup r name => (createGroup s r name).1
  | .addMember r g u => (addMember s r g u).1
  | .createExpense r req w => (createExpense s r req w).1
  | .createSettlement r req f => (createSettlement s r req f).1

/-- The store at startup: the users table is owned by the external identity
subsystem and may contain any users; every ledger table is empty. -/
def initStore (us : List UserId) : Store :=
  ⟨us, [], [], [], [], [], 0, 0⟩

/-- The store reached by a sequence of operations from startup. -/
def runOps (us : List UserId) (ops : List Op) : Store :=
  ops.foldl applyOp (initStore us)

/-- Well-formedness of reachable stores: every stored fact references current
group members, the splits of each stored expense sum exactly to its total, and
expense ids are fresh and duplicate-free. -/
structure Inv (s : Store) : Prop where
  payer_member : ∀ e ∈ s.expenses, isGroupMember s e.groupId e.paidBy = true
  split_member : ∀ sp ∈ s.expenseSplits, ∀ e ∈ s.expenses,
    e.id = sp.expenseId → isGroupMember s e.groupId sp.userId = true
  split_sum : ∀ e ∈ s.expenses,
    ((s.expenseSplits.filter fun sp => sp.expenseId == e.id).map SplitRow.amount).sum
      = e.totalAmount
  settlement_member : ∀ st ∈ s.settlements,
    isGroupMember s st.groupId st.fromUser = true ∧
      isGroupMember s st.groupId st.toUser = true
  expense_id_lt : ∀ e ∈ s.expenses, e.id < s.nextExpenseId
  expense_id_nodup : (s.expenses.map ExpenseRow.id).Nodup
  split_id_lt : ∀ sp ∈ s.expenseSplits, sp.expenseId < s.nextExpenseId

/-- A request split list segment that sails through the loop: amounts all parse
and are non-negative, and no user is repeated. -/
def CleanSplits (xs : List (UserId × Option ℚ)) : Prop :=
  (xs.map Prod.fst).Nodup ∧ ∀ p ∈ xs, ∃ a, p.2 = some a ∧ 0 ≤ a

/-- The userIDs set accumulated by the loop after processing a segment. -/
def seenAfter : List (UserId × Option ℚ) → List UserId → List UserId
  | [], seen => seen
  | (u, _) :: rest, seen => seenAfter rest (u :: seen)

/-- A request violating one of the validation rules CreateExpense enforces:
non-positive total, duplicate participant, negative split amount, split-sum
mismatch, or a split participant who is not a group member. -/
def RequestDefect (s : Store) (req : CreateExpenseRequest) : Prop :=
  (∃ t, req.totalAmount = some t ∧ t ≤ 0) ∨
  (¬ (req.splits.map Prod.fst).Nodup) ∨
  (∃ p ∈ req.splits, ∃ a, p.2 = some a ∧ a < 0) ∨
  (∃ (t : ℚ) (amts : List ℚ), req.totalAmount = some t ∧
    req.splits.map Prod.snd = amts.map some ∧ amts.sum ≠ t) ∨
  (∃ p ∈ req.splits, isGroupMember s req.groupId p.1 = false)

/-- The errors reported before the transaction stage of CreateExpense begins. -/
def preWriteErrors : List ApiError :=
  [.invalidTotalFormat, .nonPositiveTotal, .notGroupMember, .duplicateSplitUser,
   .invalidSplitFormat, .negativeSplitAmount, .splitSumMismatch, .splitUserNotMember]

/-! ### Concrete scenario stores used by the end-to-end properties -/

/-- Group of one member (user 0). -/
def storeA : Store := runOps [0] [.createGroup 0 "solo"]

/-- Group of two members (users 0 and 1). -/
def storeAB : Store := runOps [0, 1] [.createGroup 0 "grp", .addMember 0 0 1]

/-- Group of three members A = 0, B = 1, C = 2 and no facts yet. -/
def storeABC : Store :=
  runOps [0, 1, 2] [.createGroup 0 "trip", .addMember 0 0 1, .addMember 0 0 2]

/-- A pays 100.00 with splits A = 33.33, B = 33.33, C = 33.34. -/
def dinnerReq : CreateExpenseRequest :=
  ⟨0, "dinner", some 100, [(0, some (3333/100)), (1, some (3333/100)), (2, some (3334/100))]⟩

/-- State of the three-member group after the accepted dinner expense. -/
def storeAfterDinner : Store := (createExpense storeABC 0 dinnerReq allSucceed).1

/-- B settles 20.00 to A. -/
def settleReq : CreateSettlementRequest := ⟨0, 1, 0, 20⟩

/-- State after B's settlement to A is recorded. -/
def storeAfterSettle : Store := (createSettlement storeAfterDinner 1 settleReq false).1

/-- Group of four members used for the forced split-insert failure. -/
def storeABCD : Store :=
  runOps [0, 1, 2, 3]
    [.createGroup 0 "four", .addMember 0 0 1, .addMember 0 0 2, .addMember 0 0 3]

/-- A four-way expense. -/
def quadReq : CreateExpenseRequest :=
  ⟨0, "quad", some 10, [(0, some 1), (1, some 2), (2, some 3), (3, some 4)]⟩

/-- An oracle under which the third split insert violates a constraint. -/
def failThird : WriteOracle := ⟨false, false, fun i => i == 2, false⟩

/-! ### Basic facts about the Go map operations used by GetBalances -/

/-- The key list of a members map. -/
def goKeys (m : List (UserId × ℚ)) : List UserId :=
  m.map Prod.fst

theorem goKeys_map_keep (m : List (UserId × ℚ)) (g : UserId × ℚ → UserId × ℚ)
    (h : ∀ p ∈ m, (g p).1 = p.1) : goKeys (m.map g) = goKeys m := by
  simp only [goKeys, List.map_map]
  exact List.map_congr_left fun p hp => h p hp

theorem goKeys_adjust (m : List (UserId × ℚ)) (u : UserId) (f : ℚ → ℚ) :
    goKeys (goMapAdjust m u f) = goKeys m := by
  apply goKeys_map_keep
  intro p _
  by_cases h : p.1 = u <;> simp [h]

theorem goMapAdjust_not_mem (m : List (UserId × ℚ)) (u : UserId) (f : ℚ → ℚ)
    (h : u ∉ goKeys m) : goMapAdjust m u f = m := by
  induction m with
  | nil => rfl
  | cons p rest ih =>
    simp only [goKeys, List.map_cons, List.mem_cons, not_or] at h
    simp only [goMapAdjust, List.map_cons]
    rw [if_neg fun hh => h.1 hh.symm]
    have := ih (by simpa [goKeys] using h.2)
    simp only [goMapAdjust] at this
    rw [this]

theorem mem_goKeys_any (m : List (UserId × ℚ)) (u : UserId) :
    (m.any fun p => p.1 == u) = true ↔ u ∈ goKeys m := by
  simp only [List.any_eq_true, beq_iff_eq, goKeys, List.mem_map]

theorem goKeys_insertZero (m : List (UserId × ℚ)) (v : UserId) :
    goKeys (goMapInsertZero m v) =
      if v ∈ goKeys m then goKeys m else goKeys m ++ [v] := by
  unfold goMapInsertZero
  by_cases h : v ∈ goKeys m
  · rw [if_pos ((mem_goKeys_any m v).mpr h), if_pos h]
    apply goKeys_map_keep
    intro p _
    by_cases hp : p.1 = v <;> simp [hp]
  · rw [if_neg (by simpa using fun hh => h ((mem_goKeys_any m v).mp hh)), if_neg h]
    simp [goKeys]

theorem mem_goKeys_insertZero (m : List (UserId × ℚ)) (v u : UserId) :
    u ∈ goKeys (goMapInsertZero m v) ↔ u ∈ goKeys m ∨ u = v := by
  rw [goKeys_insertZero]
  by_cases h : v ∈ goKeys m
  · simp only [if_pos h]
    constructor
    · exact Or.inl
    · rintro (hu | rfl)
      · exact hu
      · exact h
  · simp [if_neg h]

theorem goKeys_insertZero_nodup (m : List (UserId × ℚ)) (v : UserId)
    (h : (goKeys m).Nodup) : (goKeys (goMapInsertZero m v)).Nodup := by
  rw [goKeys_insertZero]
  by_cases hv : v ∈ goKeys m
  · simpa [if_pos hv] using h
  · simp [if_neg hv, List.nodup_append, h, hv]

theorem goMapInsertZero_val_zero (m : List (UserId × ℚ)) (v : UserId)
    (h : ∀ p ∈ m, p.2 = 0) : ∀ p ∈ goMapInsertZero m v, p.2 = 0 := by
  intro p hp
  unfold goMapInsertZero at hp
  by_cases hc : (m.any fun q => q.1 == v) = true
  · rw [if_pos hc] at hp
    obtain ⟨q, hq, hqe⟩ := List.mem_map.mp hp
    by_cases hqv : q.1 = v
    · simp only [if_pos hqv] at hqe
      rw [← hqe]
    · simp only [if_neg hqv] at hqe
      rw [← hqe]
      exact h q hq
  · rw [if_neg hc] at hp
    rcases List.mem_append.mp hp with hq | hq
    · exact h p hq
    · simp only [List.mem_singleton] at hq
      rw [hq]

theorem foldl_insertZero_nodup (L : List UserId) (m : List (UserId × ℚ))
    (h : (goKeys m).Nodup) : (goKeys (L.foldl goMapInsertZero m)).Nodup := by
  induction L generalizing m with
  | nil => exact h
  | cons a L ih => exact ih _ (goKeys_insertZero_nodup m a h)

theorem mem_foldl_insertZero (L : List UserId) (m : List (UserId × ℚ)) (u : UserId) :
    u ∈ goKeys (L.foldl goMapInsertZero m) ↔ u ∈ goKeys m ∨ u ∈ L := by
  induction L generalizing m with
  | nil => simp
  | cons a L ih =>
    simp only [List.foldl_cons, ih, mem_goKeys_insertZero, List.mem_cons]
    tauto

theorem foldl_insertZero_val_zero (L : List UserId) (m : List (UserId × ℚ))
    (h : ∀ p ∈ m, p.2 = 0) : ∀ p ∈ L.foldl goMapInsertZero m, p.2 = 0 := by
  induction L generalizing m with
  | nil => exact h
  | cons a L ih => exact ih _ (goMapInsertZero_val_zero m a h)

theorem goMapLookup_eq_none (m : List (UserId × ℚ)) (u : UserId) :
    goMapLookup m u = none ↔ u ∉ goKeys m := by
  induction m with
  | nil => simp [goMapLookup, goKeys]
  | cons p rest ih =>
    simp only [goKeys, List.map_cons, List.mem_cons, not_or] at *
    by_cases h : p.1 = u
    · simp only [goMapLookup, if_pos h]
      constructor
      · intro hh; exact absurd hh (by simp)
      · intro hh; exact absurd h.symm hh.1
    · simp only [goMapLookup, if_neg h]
      rw [ih]
      constructor
      · intro hh; exact ⟨fun he => h he.symm, hh⟩
      · intro hh; exact hh.2

theorem goMapLookup_adjust (m : List (UserId × ℚ)) (u v : UserId) (f : ℚ → ℚ) :
    goMapLookup (goMapAdjust m u f) v =
      if v = u then (goMapLookup m u).map f else goMapLookup m v := by
  induction m with
  | nil => simp [goMapLookup, goMapAdjust]
  | cons p rest ih =>
    simp only [goMapAdjust, List.map_cons] at *
    by_cases h1 : p.1 = u
    · by_cases h2 : v = u
      · subst h2; subst h1
        simp [goMapLookup, ih]
      · have h3 : ¬ p.1 = v := fun hh => h2 ((hh ▸ h1 : v = u))
        simp only [if_pos h1, goMapLookup, if_neg h3, if_neg (h1 ▸ h3), ih, if_neg h2]
    · by_cases h2 : v = u
      · subst h2
        have h3 : ¬ p.1 = v := h1
        simp only [if_neg h1, goMapLookup, if_neg h3, ih, if_pos rfl]
      · by_cases h3 : p.1 = v
        · simp only [if_neg h1, goMapLookup, if_pos h3, if_neg h2]
        · simp only [if_neg h1, goMapLookup, if_neg h3, ih, if_neg h2]

theorem sum_map_adjust_add (m : List (UserId × ℚ)) (u : UserId) (a : ℚ)
    (h : (goKeys m).Nodup) :
    ((goMapAdjust m u (· + a)).map Prod.snd).sum
      = (m.map Prod.snd).sum + (if u ∈ goKeys m then a else 0) := by
  induction m with
  | nil => simp [goMapAdjust, goKeys]
  | cons p rest ih =>
    simp only [goKeys, List.map_cons, List.nodup_cons] at h
    by_cases hc : p.1 = u
    · subst hc
      have hrest : goMapAdjust rest p.1 (· + a) = rest :=
        goMapAdjust_not_mem rest p.1 _ (by simpa [goKeys] using h.1)
      have hmem : p.1 ∈ goKeys (p :: rest) := by simp [goKeys]
      simp only [goMapAdjust, List.map_cons, if_pos rfl] at hrest ⊢
      rw [hrest, if_pos hmem]
      simp only [List.map_cons, List.sum_cons, if_pos trivial]
      ring
    · have ihr := ih (by simpa [goKeys] using h.2)
      simp only [goMapAdjust, List.map_cons, if_neg hc] at ihr ⊢
      simp only [List.map_cons, List.sum_cons]
      rw [ihr]
      have hiff : (u ∈ goKeys (p :: rest)) ↔ u ∈ goKeys rest := by
        simp only [goKeys, List.map_cons, List.mem_cons]
        constructor
        · rintro (hh | hh)
          · exact absurd hh.symm hc
          · exact hh
        · exact Or.inr
      by_cases hu : u ∈ goKeys rest
      · rw [if_pos (hiff.mpr hu), if_pos hu]
        ring
      · rw [if_neg fun hh => hu (hiff.mp hh), if_neg hu]
        ring

theorem goMapAdjust_sub_eq_add_neg (m : List (UserId × ℚ)) (u : UserId) (a : ℚ) :
    goMapAdjust m u (· - a) = goMapAdjust m u (· + (-a)) := by
  unfold goMapAdjust
  apply List.map_congr_left
  intro p _
  by_cases h : p.1 = u <;> simp [h, sub_eq_add_neg]

theorem sum_map_adjust_sub (m : List (UserId × ℚ)) (u : UserId) (a : ℚ)
    (h : (goKeys m).Nodup) :
    ((goMapAdjust m u (· - a)).map Prod.snd).sum
      = (m.map Prod.snd).sum - (if u ∈ goKeys m then a else 0) := by
  rw [goMapAdjust_sub_eq_add_neg, sum_map_adjust_add m u (-a) h]
  by_cases hu : u ∈ goKeys m
  · rw [if_pos hu, if_pos hu]
    ring
  · rw [if_neg hu, if_neg hu]
    ring

/-! ### The three aggregation scans of GetBalances -/

theorem goKeys_foldl {α : Type} (step : List (UserId × ℚ) → α → List (UserId × ℚ))
    (hstep : ∀ m x, goKeys (step m x) = goKeys m) (L : List α) (m : List (UserId × ℚ)) :
    goKeys (L.foldl step m) = goKeys m := by
  induction L generalizing m with
  | nil => rfl
  | cons x L ih => rw [List.foldl_cons, ih, hstep]

/-- Credit scan: folding the expenses of the group adds, for each expense whose
payer is a present key, the full total. -/
theorem sum_fold_expenses (E : List ExpenseRow) (m : List (UserId × ℚ))
    (h : (goKeys m).Nodup) :
    ((E.foldl (fun m e => goMapAdjust m e.paidBy (· + e.totalAmount)) m).map Prod.snd).sum
      = (m.map Prod.snd).sum
        + (E.map fun e => if e.paidBy ∈ goKeys m then e.totalAmount else 0).sum := by
  induction E generalizing m with
  | nil => simp
  | cons e E ih =>
    rw [List.foldl_cons, ih _ (by rw [goKeys_adjust]; exact h),
      goKeys_adjust, sum_map_adjust_add _ _ _ h, List.map_cons, List.sum_cons]
    ring

/-- Debit scan: folding the joined split rows subtracts, for each split whose
user is a present key, the split amount. -/
theorem sum_fold_splits (J : List SplitRow) (m : List (UserId × ℚ))
    (h : (goKeys m).Nodup) :
    ((J.foldl (fun m sp => goMapAdjust m sp.userId (· - sp.amount)) m).map Prod.snd).sum
      = (m.map Prod.snd).sum
        - (J.map fun sp => if sp.userId ∈ goKeys m then sp.amount else 0).sum := by
  induction J generalizing m with
  | nil => simp
  | cons sp J ih =>
    rw [List.foldl_cons, ih _ (by rw [goKeys_adjust]; exact h),
      goKeys_adjust, sum_map_adjust_sub _ _ _ h, List.map_cons, List.sum_cons]
    ring

/-- Settlement scan: each settlement subtracts its amount at from_user and adds
it at to_user, whenever the respective key is present. -/
theorem sum_fold_settlements (S : List SettlementRow) (m : List (UserId × ℚ))
    (h : (goKeys m).Nodup) :
    ((S.foldl (fun m st =>
        goMapAdjust (goMapAdjust m st.fromUser (· - st.amount)) st.toUser (· + st.amount)) m).map
      Prod.snd).sum
      = (m.map Prod.snd).sum
        + (S.map fun st =>
            (if st.toUser ∈ goKeys m then st.amount else 0)
              - (if st.fromUser ∈ goKeys m then st.amount else 0)).sum := by
  induction S generalizing m with
  | nil => simp
  | cons st S ih =>
    rw [List.foldl_cons,
      ih _ (by rw [goKeys_adjust, goKeys_adjust]; exact h),
      goKeys_adjust, goKeys_adjust,
      sum_map_adjust_add _ _ _ (by rw [goKeys_adjust]; exact h),
      goKeys_adjust, sum_map_adjust_sub _ _ _ h, List.map_cons, List.sum_cons]
    ring

theorem sum_map_ite_of_all {α : Type} (L : List α) (P : α → Prop) [DecidablePred P]
    (f : α → ℚ) (h : ∀ x ∈ L, P x) :
    (L.map fun x => if P x then f x else 0).sum = (L.map f).sum := by
  induction L with
  | nil => rfl
  | cons x L ih =>
    rw [List.map_cons, List.map_cons, List.sum_cons, List.sum_cons, if_pos (h x (by simp)),
      ih fun y hy => h y (by simp [hy])]

/-! ### Splitting a filtered sum along disjoint predicates -/

theorem sum_filter_or_disjoint (L : List SplitRow) (p q : SplitRow → Bool) (f : SplitRow → ℚ)
    (h : ∀ x ∈ L, ¬(p x = true ∧ q x = true)) :
    ((L.filter fun x => p x || q x).map f).sum
      = ((L.filter p).map f).sum + ((L.filter q).map f).sum := by
  induction L with
  | nil => simp
  | cons x L ih =>
    have ihL := ih fun y hy => h y (by simp [hy])
    by_cases hp : p x = true
    · have hq : ¬ q x = true := fun hq => h x (by simp) ⟨hp, hq⟩
      rw [List.filter_cons_of_pos (by simp [hp]), List.filter_cons_of_pos hp,
        List.filter_cons_of_neg hq, List.map_cons, List.sum_cons, List.map_cons,
        List.sum_cons, ihL]
      ring
    · by_cases hq : q x = true
      · rw [List.filter_cons_of_pos (by simp [hq]), List.filter_cons_of_neg hp,
          List.filter_cons_of_pos hq, List.map_cons, List.sum_cons, List.map_cons,
          List.sum_cons, ihL]
        ring
      · rw [List.filter_cons_of_neg (by simp [hp, hq]), List.filter_cons_of_neg hp,
          List.filter_cons_of_neg hq, ihL]

/-- Summing the splits joined against a duplicate-free expense list groups as a
sum of per-expense sums. -/
theorem sum_joined_splits (splits : List SplitRow) (E : List ExpenseRow)
    (hN : (E.map ExpenseRow.id).Nodup) :
    ((splits.filter fun sp => E.any fun e => e.id == sp.expenseId).map SplitRow.amount).sum
      = (E.map fun e =>
          ((splits.filter fun sp => sp.expenseId == e.id).map SplitRow.amount).sum).sum := by
  induction E with
  | nil => simp
  | cons e E ih =>
    simp only [List.map_cons, List.nodup_cons] at hN
    have hdisj : ∀ sp ∈ splits,
        ¬((sp.expenseId == e.id) = true ∧ (E.any fun x => x.id == sp.expenseId) = true) := by
      intro sp _ hpq
      obtain ⟨h1, h2⟩ := hpq
      rw [beq_iff_eq] at h1
      obtain ⟨x, hx, hxe⟩ := List.any_eq_true.mp h2
      rw [beq_iff_eq] at hxe
      have hxid : x.id = e.id := by rw [hxe, h1]
      exact hN.1 (List.mem_map.mpr ⟨x, hx, hxid⟩)
    have hcong : (splits.filter fun sp => (e :: E).any fun x => x.id == sp.expenseId)
        = splits.filter fun sp => (sp.expenseId == e.id) || (E.any fun x => x.id == sp.expenseId) := by
      apply List.filter_congr
      intro sp _
      simp only [List.any_cons]
      by_cases hh : e.id = sp.expenseId
      · rw [hh]
      · rw [beq_eq_false_iff_ne.mpr hh, beq_eq_false_iff_ne.mpr fun h2 => hh h2.symm]
    rw [hcong, sum_filter_or_disjoint _ _ _ _ hdisj, List.map_cons, List.sum_cons, ih hN.2]

/-! ### Characterizing the write operations -/

theorem isGroupMember_iff_mem_memberIds (s : Store) (g : GroupId) (u : UserId) :
    isGroupMember s g u = true ↔ u ∈ memberIds s g := by
  simp only [isGroupMember, List.any_eq_true, Bool.and_eq_true, beq_iff_eq,
    memberIds, List.mem_map, List.mem_filter]
  tauto

theorem isGroupMember_mono (s s2 : Store) (l : List MemberRow) (g : GroupId) (u : UserId)
    (h : s2.groupMembers = s.groupMembers ++ l) (hm : isGroupMember s g u = true) :
    isGroupMember s2 g u = true := by
  unfold isGroupMember at *
  rw [h, List.any_append, hm, Bool.true_or]

theorem validateExpense_ok (s : Store) (r : UserId) (req : CreateExpenseRequest)
    (total : ℚ) (parsed : List (UserId × ℚ))
    (h : validateExpense s r req = .ok (total, parsed)) :
    req.totalAmount = some total ∧ 0 < total ∧ isGroupMember s req.groupId r = true ∧
      splitLoop req.splits [] = .ok parsed ∧ (parsed.map Prod.snd).sum = total ∧
      ∀ p ∈ parsed, isGroupMember s req.groupId p.1 = true := by
  unfold validateExpense at h
  cases hta : req.totalAmount with
  | none => rw [hta] at h; exact absurd h (by simp)
  | some t =>
    rw [hta] at h
    simp only at h
    by_cases h1 : t ≤ 0
    · rw [if_pos h1] at h; exact absurd h (by simp)
    · rw [if_neg h1] at h
      by_cases h2 : isGroupMember s req.groupId r = true
      · rw [if_neg (not_not_intro h2)] at h
        cases hsl : splitLoop req.splits [] with
        | error e => rw [hsl] at h; exact absurd h (by simp)
        | ok parsed1 =>
          rw [hsl] at h
          simp only at h
          by_cases h3 : (parsed1.map Prod.snd).sum = t
          · rw [if_neg (not_not_intro h3)] at h
            by_cases h4 : parsed1.all (fun p => isGroupMember s req.groupId p.1) = true
            · rw [if_neg (not_not_intro h4)] at h
              have hpair := Except.ok.inj h
              have h5 : t = total := congrArg Prod.fst hpair
              have h6 : parsed1 = parsed := congrArg Prod.snd hpair
              subst h5
              subst h6
              exact ⟨rfl, lt_of_not_le h1, h2, rfl, h3,
                fun p hp => List.all_eq_true.mp h4 p hp⟩
            · rw [if_pos h4] at h; exact absurd h (by simp)
          · rw [if_pos h3] at h; exact absurd h (by simp)
      · rw [if_pos h2] at h; exact absurd h (by simp)

theorem insertSplits_ok (w : WriteOracle) (eid : ExpenseId) (l : List (UserId × ℚ))
    (i : Nat) (t t2 : Tx) (h : insertSplits w eid l i t = some t2) :
    t2.expenses = t.expenses ∧
      t2.expenseSplits = t.expenseSplits ++ l.map fun p => SplitRow.mk eid p.1 p.2 := by
  induction l generalizing i t with
  | nil =>
    simp only [insertSplits, Option.some.injEq] at h
    rw [← h]
    simp
  | cons p l ih =>
    rw [insertSplits] at h
    split_ifs at h
    obtain ⟨h1, h2⟩ := ih _ _ h
    refine ⟨h1, ?_⟩
    rw [h2]
    simp

/-- Either CreateExpense rejects (or rolls back) leaving the store exactly as it
was, or validation succeeded and it commits precisely one expense header plus
one split row per parsed split, with a fresh expense id. -/
theorem createExpense_spec (s : Store) (r : UserId) (req : CreateExpenseRequest)
    (w : WriteOracle) :
    (∃ e, createExpense s r req w = (s, .error e)) ∨
    (∃ total parsed,
        validateExpense s r req = .ok (total, parsed) ∧
        createExpense s r req w =
          ({ s with
              expenses := s.expenses ++
                [⟨s.nextExpenseId, req.groupId, req.description, total, r⟩],
              expenseSplits := s.expenseSplits ++
                parsed.map fun p => SplitRow.mk s.nextExpenseId p.1 p.2,
              nextExpenseId := s.nextExpenseId + 1 },
            .ok (⟨s.nextExpenseId, req.groupId, req.description, total, r⟩,
                 parsed.map fun p => SplitRow.mk s.nextExpenseId p.1 p.2))) := by
  unfold createExpense
  cases hv : validateExpense s r req with
  | error e0 => exact Or.inl ⟨e0, rfl⟩
  | ok v =>
    obtain ⟨total, parsed⟩ := v
    by_cases hb : w.beginFails = true
    · simp only [hb]
      exact Or.inl ⟨.txBeginFailed, rfl⟩
    · simp only [hb]
      by_cases hh : w.headerFails = true
      · simp only [hh]
        exact Or.inl ⟨.headerInsertFailed, rfl⟩
      · simp only [hh]
        cases his : insertSplits w s.nextExpenseId parsed 0
            ⟨[⟨s.nextExpenseId, req.groupId, req.description, total, r⟩], []⟩ with
        | none => exact Or.inl ⟨.splitInsertFailed, rfl⟩
        | some t =>
          by_cases hc : w.commitFails = true
          · simp only [hc]
            exact Or.inl ⟨.commitFailed, rfl⟩
          · simp only [hc]
            obtain ⟨h1, h2⟩ := insertSplits_ok _ _ _ _ _ _ his
            refine Or.inr ⟨total, parsed, rfl, ?_⟩
            simp only [Bool.false_eq_true, if_false]
            rw [txCommit, h1, h2]
            simp

/-- A validation failure is returned as is, before the transaction stage, for
every write oracle. -/
theorem createExpense_of_validate_error (s : Store) (r : UserId)
    (req : CreateExpenseRequest) (e : ApiError) (h : validateExpense s r req = .error e) :
    ∀ w, createExpense s r req w = (s, .error e) := by
  intro w
  unfold createExpense
  rw [h]

/-! ### The invariant maintained by every accepted operation -/

theorem inv_initStore (us : List UserId) : Inv (initStore us) := by
  refine ⟨?_, ?_, ?_, ?_, ?_, ?_, ?_⟩ <;> simp [initStore]

/-- Appending member rows preserves the invariant: all membership facts are
positive. -/
theorem inv_members_append (s : Store) (hInv : Inv s) (l : List MemberRow)
    (s2 : Store) (hgm : s2.groupMembers = s.groupMembers ++ l)
    (he : s2.expenses = s.expenses) (hsp : s2.expenseSplits = s.expenseSplits)
    (hst : s2.settlements = s.settlements) (hn : s2.nextExpenseId = s.nextExpenseId) :
    Inv s2 := by
  refine ⟨?_, ?_, ?_, ?_, ?_, ?_, ?_⟩
  · intro e hee
    rw [he] at hee
    exact isGroupMember_mono s s2 l _ _ hgm (hInv.payer_member e hee)
  · intro sp hsp2 e hee hid
    rw [hsp] at hsp2
    rw [he] at hee
    exact isGroupMember_mono s s2 l _ _ hgm (hInv.split_member sp hsp2 e hee hid)
  · intro e hee
    rw [he] at hee
    rw [hsp]
    exact hInv.split_sum e hee
  · intro st hstm
    rw [hst] at hstm
    obtain ⟨hf, ht⟩ := hInv.settlement_member st hstm
    exact ⟨isGroupMember_mono s s2 l _ _ hgm hf, isGroupMember_mono s s2 l _ _ hgm ht⟩
  · intro e hee
    rw [he] at hee
    rw [hn]
    exact hInv.expense_id_lt e hee
  · rw [he]
    exact hInv.expense_id_nodup
  · intro sp hsp2
    rw [hsp] at hsp2
    rw [hn]
    exact hInv.split_id_lt sp hsp2

theorem inv_createGroup (s : Store) (hInv : Inv s) (r : UserId) (name : String) :
    Inv (createGroup s r name).1 :=
  inv_members_append s hInv [⟨s.nextGroupId, r⟩] _ rfl rfl rfl rfl rfl

/-- AddMember either rejects leaving the store unchanged, or appends exactly
one membership row. -/
theorem addMember_spec (s : Store) (r : UserId) (g : GroupId) (u : UserId) :
    (∃ e, addMember s r g u = (s, .error e)) ∨
    (isGroupMember s g r = true ∧ userExists s u = true ∧ isGroupMember s g u = false ∧
      addMember s r g u = ({ s with groupMembers := s.groupMembers ++ [⟨g, u⟩] }, .ok ())) := by
  unfold addMember
  by_cases h1 : isGroupMember s g r = true
  · rw [if_neg (not_not_intro h1)]
    by_cases h2 : userExists s u = true
    · rw [if_neg (not_not_intro h2)]
      by_cases h3 : isGroupMember s g u = true
      · rw [if_pos h3]
        exact Or.inl ⟨_, rfl⟩
      · rw [if_neg h3]
        exact Or.inr ⟨h1, h2, by simpa using h3, rfl⟩
    · rw [if_pos h2]
      exact Or.inl ⟨_, rfl⟩
  · rw [if_pos h1]
    exact Or.inl ⟨_, rfl⟩

/-- CreateSettlement either rejects leaving the store unchanged, or all checks
passed and it appends exactly one settlement row. -/
theorem createSettlement_spec (s : Store) (r : UserId) (req : CreateSettlementRequest)
    (f : Bool) :
    (∃ e, createSettlement s r req f = (s, .error e)) ∨
    (0 < req.amount ∧ isGroupMember s req.groupId r = true ∧
      isGroupMember s req.groupId req.fromUser = true ∧
      isGroupMember s req.groupId req.toUser = true ∧ req.fromUser ≠ req.toUser ∧
      f = false ∧
      createSettlement s r req f =
        ({ s with settlements := s.settlements ++
            [⟨req.groupId, req.fromUser, req.toUser, req.amount⟩] },
          .ok ⟨req.groupId, req.fromUser, req.toUser, req.amount⟩)) := by
  unfold createSettlement
  by_cases h1 : req.amount ≤ 0
  · rw [if_pos h1]
    exact Or.inl ⟨_, rfl⟩
  · rw [if_neg h1]
    by_cases h2 : isGroupMember s req.groupId r = true
    · rw [if_neg (not_not_intro h2)]
      by_cases h3 : isGroupMember s req.groupId req.fromUser = true
      · rw [if_neg (not_not_intro h3)]
        by_cases h4 : isGroupMember s req.groupId req.toUser = true
        · rw [if_neg (not_not_intro h4)]
          by_cases h5 : req.fromUser = req.toUser
          · rw [if_pos h5]
            exact Or.inl ⟨_, rfl⟩
          · rw [if_neg h5]
            by_cases h6 : f = true
            · rw [if_pos h6]
              exact Or.inl ⟨_, rfl⟩
            · rw [if_neg h6]
              exact Or.inr ⟨lt_of_not_le h1, h2, h3, h4, h5, by simpa using h6, rfl⟩
        · rw [if_pos h4]
          exact Or.inl ⟨_, rfl⟩
      · rw [if_pos h3]
        exact Or.inl ⟨_, rfl⟩
    · rw [if_pos h2]
      exact Or.inl ⟨_, rfl⟩

theorem inv_addMember (s : Store) (hInv : Inv s) (r : UserId) (g : GroupId) (u : UserId) :
    Inv (addMember s r g u).1 := by
  rcases addMember_spec s r g u with ⟨e, he⟩ | ⟨-, -, -, he⟩
  · rw [he]
    exact hInv
  · rw [he]
    exact inv_members_append s hInv [⟨g, u⟩] _ rfl rfl rfl rfl rfl

theorem inv_createSettlement (s : Store) (hInv : Inv s) (r : UserId)
    (req : CreateSettlementRequest) (f : Bool) : Inv (createSettlement s r req f).1 := by
  rcases createSettlement_spec s r req f with ⟨e, he⟩ | ⟨-, -, hf, ht, -, -, he⟩
  · rw [he]
    exact hInv
  · rw [he]
    refine ⟨hInv.payer_member, hInv.split_member, hInv.split_sum, ?_, hInv.expense_id_lt,
      hInv.expense_id_nodup, hInv.split_id_lt⟩
    intro st hst
    rcases List.mem_append.mp hst with hold | hnew
    · exact hInv.settlement_member st hold
    · simp only [List.mem_singleton] at hnew
      subst hnew
      exact ⟨hf, ht⟩

theorem inv_createExpense (s : Store) (hInv : Inv s) (r : UserId)
    (req : CreateExpenseRequest) (w : WriteOracle) : Inv (createExpense s r req w).1 := by
  rcases createExpense_spec s r req w with ⟨e, he⟩ | ⟨total, parsed, hv, he⟩
  · rw [he]
    exact hInv
  · rw [he]
    obtain ⟨-, -, hmem, -, hsum, hall⟩ := validateExpense_ok s r req total parsed hv
    refine ⟨?_, ?_, ?_, ?_, ?_, ?_, ?_⟩
    · intro e hee
      rcases List.mem_append.mp hee with hold | hnew
      · exact hInv.payer_member e hold
      · simp only [List.mem_singleton] at hnew
        subst hnew
        exact hmem
    · intro sp hsp2 e hee hid
      rcases List.mem_append.mp hsp2 with hspold | hspnew
      · rcases List.mem_append.mp hee with hold | hnew
        · exact hInv.split_member sp hspold e hold hid
        · simp only [List.mem_singleton] at hnew
          subst hnew
          exact absurd (hid ▸ hInv.split_id_lt sp hspold) (lt_irrefl _)
      · obtain ⟨p, hp, hpe⟩ := List.mem_map.mp hspnew
        rcases List.mem_append.mp hee with hold | hnew
        · have : e.id < s.nextExpenseId := hInv.expense_id_lt e hold
          rw [hid, ← hpe] at this
          exact absurd this (lt_irrefl _)
        · simp only [List.mem_singleton] at hnew
          subst hnew
          rw [← hpe]
          exact hall p hp
    · intro e hee
      rw [List.filter_append]
      rcases List.mem_append.mp hee with hold | hnew
      · have hnil : ((parsed.map fun p => SplitRow.mk s.nextExpenseId p.1 p.2).filter
            fun sp => sp.expenseId == e.id) = [] := by
          rw [List.filter_eq_nil_iff]
          intro sp hspm
          obtain ⟨p, hp, hpe⟩ := List.mem_map.mp hspm
          have : e.id < s.nextExpenseId := hInv.expense_id_lt e hold
          rw [← hpe]
          simp only [beq_iff_eq]
          intro hcontra
          rw [hcontra] at this
          exact absurd this (lt_irrefl _)
        rw [hnil, List.append_nil]
        exact hInv.split_sum e hold
      · simp only [List.mem_singleton] at hnew
        subst hnew
        have hnil : (s.expenseSplits.filter fun sp => sp.expenseId == s.nextExpenseId) = [] := by
          rw [List.filter_eq_nil_iff]
          intro sp hspm
          have : sp.expenseId < s.nextExpenseId := hInv.split_id_lt sp hspm
          simp only [beq_iff_eq]
          intro hcontra
          rw [hcontra] at this
          exact absurd this (lt_irrefl _)
        have hall2 : ((parsed.map fun p => SplitRow.mk s.nextExpenseId p.1 p.2).filter
            fun sp => sp.expenseId == s.nextExpenseId)
            = parsed.map fun p => SplitRow.mk s.nextExpenseId p.1 p.2 := by
          rw [List.filter_eq_self]
          intro sp hspm
          obtain ⟨p, hp, hpe⟩ := List.mem_map.mp hspm
          rw [← hpe]
          simp
        rw [hnil, List.nil_append, hall2, List.map_map]
        exact hsum
    · intro st hst
      exact hInv.settlement_member st hst
    · intro e hee
      rcases List.mem_append.mp hee with hold | hnew
      · exact Nat.lt_succ_of_lt (hInv.expense_id_lt e hold)
      · simp only [List.mem_singleton] at hnew
        subst hnew
        exact Nat.lt_succ_self _
    · rw [List.map_append]
      simp only [List.map_cons, List.map_nil]
      rw [List.nodup_append]
      refine ⟨hInv.expense_id_nodup, List.nodup_singleton _, ?_⟩
      intro x hx
      obtain ⟨e, hee, hid⟩ := List.mem_map.mp hx
      simp only [List.mem_singleton]
      intro hcontra
      have : e.id < s.nextExpenseId := hInv.expense_id_lt e hee
      rw [hid, hcontra] at this
      exact absurd this (lt_irrefl _)
    · intro sp hsp2
      rcases List.mem_append.mp hsp2 with hspold | hspnew
      · exact Nat.lt_succ_of_lt (hInv.split_id_lt sp hspold)
      · obtain ⟨p, hp, hpe⟩ := List.mem_map.mp hspnew
        rw [← hpe]
        exact Nat.lt_succ_self _

theorem inv_applyOp (s : Store) (hInv : Inv s) (op : Op) : Inv (applyOp s op) := by
  cases op with
  | createGroup r name => exact inv_createGroup s hInv r name
  | addMember r g u => exact inv_addMember s hInv r g u
  | createExpense r req w => exact inv_createExpense s hInv r req w
  | createSettlement r req f => exact inv_createSettlement s hInv r req f

theorem inv_foldl (ops : List Op) (s : Store) (hInv : Inv s) :
    Inv (ops.foldl applyOp s) := by
  induction ops generalizing s with
  | nil => exact hInv
  | cons op ops ih => exact ih _ (inv_applyOp s hInv op)

theorem inv_runOps (us : List UserId) (ops : List Op) : Inv (runOps us ops) :=
  inv_foldl ops _ (inv_initStore us)

/-! ### Conservation: the members map always sums to zero on reachable stores -/

theorem any_and_filter (E : List ExpenseRow) (p q : ExpenseRow → Bool) :
    (E.any fun e => p e && q e) = (E.filter q).any p := by
  induction E with
  | nil => simp
  | cons e E ih =>
    cases hq : q e
    · rw [List.any_cons, List.filter_cons_of_neg (by simp [hq]), ih, hq]
      simp
    · rw [List.any_cons, List.filter_cons_of_pos hq, List.any_cons, ih, hq]
      simp

theorem splitInGroup_eq_any (s : Store) (g : GroupId) (sp : SplitRow) :
    splitInGroup s g sp
      = ((s.expenses.filter fun e => e.groupId == g).any fun e => e.id == sp.expenseId) :=
  any_and_filter s.expenses _ _

theorem goKeys_initMembersMap (s : Store) (g : GroupId) (u : UserId) :
    u ∈ goKeys (initMembersMap s g) ↔ isGroupMember s g u = true := by
  rw [initMembersMap, mem_foldl_insertZero, isGroupMember_iff_mem_memberIds]
  simp [goKeys]

theorem nodup_initMembersMap (s : Store) (g : GroupId) :
    (goKeys (initMembersMap s g)).Nodup :=
  foldl_insertZero_nodup _ [] (by simp [goKeys])

theorem sum_initMembersMap (s : Store) (g : GroupId) :
    ((initMembersMap s g).map Prod.snd).sum = 0 := by
  apply List.sum_eq_zero
  intro x hx
  obtain ⟨p, hp, hpe⟩ := List.mem_map.mp hx
  rw [← hpe]
  exact foldl_insertZero_val_zero _ [] (by simp) p hp

theorem goKeys_applyExpenses (s : Store) (g : GroupId) (m : List (UserId × ℚ)) :
    goKeys (applyExpenses s g m) = goKeys m := by
  unfold applyExpenses
  exact goKeys_foldl (fun (m : List (UserId × ℚ)) (e : ExpenseRow) =>
      goMapAdjust m e.paidBy (· + e.totalAmount))
    (fun m e => goKeys_adjust m e.paidBy _) _ m

theorem goKeys_applySplits (s : Store) (g : GroupId) (m : List (UserId × ℚ)) :
    goKeys (applySplits s g m) = goKeys m := by
  unfold applySplits
  exact goKeys_foldl (fun (m : List (UserId × ℚ)) (sp : SplitRow) =>
      goMapAdjust m sp.userId (· - sp.amount))
    (fun m sp => goKeys_adjust m sp.userId _) _ m

theorem goKeys_applySettlements (s : Store) (g : GroupId) (m : List (UserId × ℚ)) :
    goKeys (applySettlements s g m) = goKeys m := by
  unfold applySettlements
  exact goKeys_foldl
    (fun (m : List (UserId × ℚ)) (st : SettlementRow) =>
      goMapAdjust (goMapAdjust m st.fromUser (· - st.amount)) st.toUser (· + st.amount))
    (fun m st => by rw [goKeys_adjust, goKeys_adjust]) _ m

theorem sum_applyExpenses (s : Store) (g : GroupId) (m : List (UserId × ℚ))
    (h : (goKeys m).Nodup) :
    ((applyExpenses s g m).map Prod.snd).sum
      = (m.map Prod.snd).sum
        + ((s.expenses.filter fun e => e.groupId == g).map fun e =>
            if e.paidBy ∈ goKeys m then e.totalAmount else 0).sum :=
  sum_fold_expenses _ m h

theorem sum_applySplits (s : Store) (g : GroupId) (m : List (UserId × ℚ))
    (h : (goKeys m).Nodup) :
    ((applySplits s g m).map Prod.snd).sum
      = (m.map Prod.snd).sum
        - ((s.expenseSplits.filter (splitInGroup s g)).map fun sp =>
            if sp.userId ∈ goKeys m then sp.amount else 0).sum :=
  sum_fold_splits _ m h

theorem sum_applySettlements (s : Store) (g : GroupId) (m : List (UserId × ℚ))
    (h : (goKeys m).Nodup) :
    ((applySettlements s g m).map Prod.snd).sum
      = (m.map Prod.snd).sum
        + ((s.settlements.filter fun st => st.groupId == g).map fun st =>
            (if st.toUser ∈ goKeys m then st.amount else 0)
              - (if st.fromUser ∈ goKeys m then st.amount else 0)).sum :=
  sum_fold_settlements _ m h

/-- Coverage: the keys of the members map are exactly the current members. -/
theorem mem_goKeys_balancesMap (s : Store) (g : GroupId) (u : UserId) :
    u ∈ goKeys (balancesMap s g) ↔ isGroupMember s g u = true := by
  rw [balancesMap, goKeys_applySettlements, goKeys_applySplits, goKeys_applyExpenses,
    goKeys_initMembersMap]

theorem nodup_goKeys_balancesMap (s : Store) (g : GroupId) :
    (goKeys (balancesMap s g)).Nodup := by
  rw [balancesMap, goKeys_applySettlements, goKeys_applySplits, goKeys_applyExpenses]
  exact nodup_initMembersMap s g

/-- On any store satisfying the invariant, the members map of any group sums to
exactly zero. -/
theorem balances_sum_zero_of_inv (s : Store) (hInv : Inv s) (g : GroupId) :
    ((balancesMap s g).map Prod.snd).sum = 0 := by
  have h0nodup := nodup_initMembersMap s g
  have h1nodup : (goKeys (applyExpenses s g (initMembersMap s g))).Nodup := by
    rw [goKeys_applyExpenses]; exact h0nodup
  have h2nodup : (goKeys (applySplits s g (applyExpenses s g (initMembersMap s g)))).Nodup := by
    rw [goKeys_applySplits]; exact h1nodup
  rw [balancesMap, sum_applySettlements _ _ _ h2nodup, sum_applySplits _ _ _ h1nodup,
    sum_applyExpenses _ _ _ h0nodup, sum_initMembersMap]
  -- every indicator is true under the invariant
  rw [sum_map_ite_of_all _ _ ExpenseRow.totalAmount ?hexp]
  case hexp =>
    intro e he
    obtain ⟨hee, heg⟩ := List.mem_filter.mp he
    rw [goKeys_initMembersMap]
    have := hInv.payer_member e hee
    rw [beq_iff_eq.mp heg] at this
    exact this
  rw [goKeys_applyExpenses]
  rw [sum_map_ite_of_all _ _ SplitRow.amount ?hsp]
  case hsp =>
    intro sp hsp2
    obtain ⟨hspm, hspg⟩ := List.mem_filter.mp hsp2
    rw [goKeys_initMembersMap]
    rw [splitInGroup] at hspg
    obtain ⟨e, hee, hprop⟩ := List.any_eq_true.mp hspg
    rw [Bool.and_eq_true, beq_iff_eq, beq_iff_eq] at hprop
    have := hInv.split_member sp hspm e hee hprop.1
    rw [hprop.2] at this
    exact this
  rw [goKeys_applySplits, goKeys_applyExpenses]
  have hsett : ((s.settlements.filter fun st => st.groupId == g).map fun st =>
      (if st.toUser ∈ goKeys (initMembersMap s g) then st.amount else 0)
        - (if st.fromUser ∈ goKeys (initMembersMap s g) then st.amount else 0)).sum = 0 := by
    apply List.sum_eq_zero
    intro x hx
    obtain ⟨st, hst2, hste⟩ := List.mem_map.mp hx
    obtain ⟨hstm, hstg⟩ := List.mem_filter.mp hst2
    obtain ⟨hf, ht⟩ := hInv.settlement_member st hstm
    rw [beq_iff_eq.mp hstg] at hf ht
    rw [← hste, if_pos ((goKeys_initMembersMap s g _).mpr ht),
      if_pos ((goKeys_initMembersMap s g _).mpr hf)]
    ring
  rw [hsett]
  -- the joined split sum equals the expense total sum
  have hjoin : ((s.expenseSplits.filter (splitInGroup s g)).map SplitRow.amount).sum
      = ((s.expenses.filter fun e => e.groupId == g).map ExpenseRow.totalAmount).sum := by
    have hcong : s.expenseSplits.filter (splitInGroup s g)
        = s.expenseSplits.filter fun sp =>
            (s.expenses.filter fun e => e.groupId == g).any fun e => e.id == sp.expenseId := by
      apply List.filter_congr
      intro sp _
      exact splitInGroup_eq_any s g sp
    have hN : ((s.expenses.filter fun e => e.groupId == g).map ExpenseRow.id).Nodup :=
      (hInv.expense_id_nodup).sublist (List.Sublist.map ExpenseRow.id (List.filter_sublist s.expenses))
    rw [hcong, sum_joined_splits _ _ hN]
    apply congrArg
    apply List.map_congr_left
    intro e he
    exact hInv.split_sum e (List.mem_filter.mp he).1
  rw [hjoin]
  ring

/-! ### How one appended fact row changes the members map -/

theorem balancesMap_append_settlement (s : Store) (st : SettlementRow) (g : GroupId)
    (hg : st.groupId = g) :
    balancesMap { s with settlements := s.settlements ++ [st] } g
      = goMapAdjust (goMapAdjust (balancesMap s g) st.fromUser (· - st.amount))
          st.toUser (· + st.amount) := by
  have hstage : applySplits { s with settlements := s.settlements ++ [st] } g
      (applyExpenses { s with settlements := s.settlements ++ [st] } g
        (initMembersMap { s with settlements := s.settlements ++ [st] } g))
      = applySplits s g (applyExpenses s g (initMembersMap s g)) := rfl
  simp only [balancesMap, applySettlements]
  rw [hstage, List.filter_append,
    show List.filter (fun x => x.groupId == g) [st] = [st] from by simp [hg],
    List.foldl_append, List.foldl_cons, List.foldl_nil]

theorem balancesMap_append_split (s : Store) (sp : SplitRow) (g : GroupId) :
    balancesMap { s with expenseSplits := s.expenseSplits ++ [sp] } g
      = if splitInGroup s g sp then
          applySettlements s g
            (goMapAdjust (applySplits s g (applyExpenses s g (initMembersMap s g)))
              sp.userId (· - sp.amount))
        else balancesMap s g := by
  have hstage : applyExpenses { s with expenseSplits := s.expenseSplits ++ [sp] } g
      (initMembersMap { s with expenseSplits := s.expenseSplits ++ [sp] } g)
      = applyExpenses s g (initMembersMap s g) := rfl
  have hsett : ∀ m, applySettlements { s with expenseSplits := s.expenseSplits ++ [sp] } g m
      = applySettlements s g m := fun m => rfl
  have hsg : splitInGroup { s with expenseSplits := s.expenseSplits ++ [sp] } g
      = splitInGroup s g := rfl
  simp only [balancesMap, applySplits]
  rw [hstage, hsett, hsg, List.filter_append]
  cases hspg : splitInGroup s g sp
  · rw [show List.filter (splitInGroup s g) [sp] = [] from by simp [hspg],
      List.append_nil, if_neg (by simp [hspg])]
  · rw [show List.filter (splitInGroup s g) [sp] = [sp] from by simp [hspg],
      List.foldl_append, List.foldl_cons, List.foldl_nil, if_pos (by simp)]

theorem balancesMap_append_expense (s : Store) (e : ExpenseRow) (g : GroupId)
    (hfresh : ∀ sp ∈ s.expenseSplits, sp.expenseId ≠ e.id) :
    balancesMap { s with expenses := s.expenses ++ [e] } g
      = if e.groupId == g then
          applySettlements s g (applySplits s g
            (goMapAdjust (applyExpenses s g (initMembersMap s g)) e.paidBy (· + e.totalAmount)))
        else balancesMap s g := by
  have hinit : initMembersMap { s with expenses := s.expenses ++ [e] } g
      = initMembersMap s g := rfl
  have hsett : ∀ m, applySettlements { s with expenses := s.expenses ++ [e] } g m
      = applySettlements s g m := fun m => rfl
  have hsplits : ∀ m, applySplits { s with expenses := s.expenses ++ [e] } g m
      = applySplits s g m := by
    intro m
    simp only [applySplits]
    have : List.filter (splitInGroup { s with expenses := s.expenses ++ [e] } g) s.expenseSplits
        = List.filter (splitInGroup s g) s.expenseSplits := by
      apply List.filter_congr
      intro sp hsp
      show splitInGroup { s with expenses := s.expenses ++ [e] } g sp = splitInGroup s g sp
      unfold splitInGroup
      rw [show ({ s with expenses := s.expenses ++ [e] } : Store).expenses
        = s.expenses ++ [e] from rfl, List.any_append]
      have : ([e].any fun e2 => e2.id == sp.expenseId && e2.groupId == g) = false := by
        simp only [List.any_cons, List.any_nil, Bool.or_false, Bool.and_eq_false_iff]
        left
        exact beq_eq_false_iff_ne.mpr fun hh => hfresh sp hsp hh.symm
      rw [this, Bool.or_false]
    rw [this]
  have hexp : applyExpenses { s with expenses := s.expenses ++ [e] } g (initMembersMap s g)
      = if e.groupId == g then
          goMapAdjust (applyExpenses s g (initMembersMap s g)) e.paidBy (· + e.totalAmount)
        else applyExpenses s g (initMembersMap s g) := by
    simp only [applyExpenses]
    rw [List.filter_append]
    cases heg : (e.groupId == g)
    · rw [show List.filter (fun e2 => e2.groupId == g) [e] = [] from by simp [heg],
        List.append_nil, if_neg (by simp)]
    · rw [show List.filter (fun e2 => e2.groupId == g) [e] = [e] from by simp [heg],
        List.foldl_append, List.foldl_cons, List.foldl_nil, if_pos (by simp)]
  simp only [balancesMap]
  rw [hinit, hsett, hsplits, hexp]
  cases heg : (e.groupId == g)
  · rw [if_neg (by simp), if_neg (by simp)]
  · rw [if_pos (by simp), if_pos (by simp)]

/-- A present key always has a looked-up value. -/
theorem goMapLookup_of_mem_goKeys (m : List (UserId × ℚ)) (u : UserId)
    (h : u ∈ goKeys m) : ∃ v, goMapLookup m u = some v := by
  cases hl : goMapLookup m u with
  | none => exact absurd h ((goMapLookup_eq_none m u).mp hl)
  | some v => exact ⟨v, rfl⟩

/-! ### Finer analysis of the validation loop -/

theorem mem_seenAfter (xs : List (UserId × Option ℚ)) (seen : List UserId) (v : UserId) :
    v ∈ seenAfter xs seen ↔ v ∈ xs.map Prod.fst ∨ v ∈ seen := by
  induction xs generalizing seen with
  | nil => simp [seenAfter]
  | cons p xs ih =>
    obtain ⟨u, a?⟩ := p
    simp only [seenAfter, ih, List.map_cons, List.mem_cons]
    tauto

theorem splitLoop_ok_spec (l : List (UserId × Option ℚ)) (seen : List UserId)
    (parsed : List (UserId × ℚ)) (h : splitLoop l seen = .ok parsed) :
    parsed.map Prod.fst = l.map Prod.fst ∧
    l.map Prod.snd = parsed.map (fun p => some p.2) ∧
    (∀ p ∈ parsed, 0 ≤ p.2) ∧
    (l.map Prod.fst).Nodup ∧
    (∀ u ∈ l.map Prod.fst, u ∉ seen) := by
  induction l generalizing seen parsed with
  | nil =>
    simp only [splitLoop, Except.ok.injEq] at h
    subst h
    simp
  | cons p l ih =>
    obtain ⟨u, a?⟩ := p
    simp only [splitLoop] at h
    by_cases hseen : u ∈ seen
    · rw [if_pos hseen] at h
      exact absurd h (by simp)
    · rw [if_neg hseen] at h
      cases ha : a? with
      | none => rw [ha] at h; exact absurd h (by simp)
      | some a =>
        rw [ha] at h
        simp only at h
        by_cases hneg : a < 0
        · rw [if_pos hneg] at h
          exact absurd h (by simp)
        · rw [if_neg hneg] at h
          cases hrec : splitLoop l (u :: seen) with
          | error e => rw [hrec] at h; exact absurd h (by simp)
          | ok parsed1 =>
            rw [hrec] at h
            simp only [Except.ok.injEq] at h
            subst h
            obtain ⟨ih1, ih2, ih3, ih4, ih5⟩ := ih (u :: seen) parsed1 hrec
            refine ⟨?_, ?_, ?_, ?_, ?_⟩
            · simp [ih1]
            · simp [ha, ih2]
            · intro q hq
              rcases List.mem_cons.mp hq with hq | hq
              · rw [hq]
                exact le_of_not_lt hneg
              · exact ih3 q hq
            · rw [List.map_cons, List.nodup_cons]
              refine ⟨fun hmem => ?_, ih4⟩
              exact (ih5 u hmem) (by simp)
            · intro v hv
              rcases List.mem_cons.mp hv with hv | hv
              · rw [hv]
                exact hseen
              · intro hvs
                exact (ih5 v hv) (by simp [hvs])

theorem splitLoop_error_mem (l : List (UserId × Option ℚ)) (seen : List UserId)
    (e : ApiError) (h : splitLoop l seen = .error e) :
    e = .duplicateSplitUser ∨ e = .invalidSplitFormat ∨ e = .negativeSplitAmount := by
  induction l generalizing seen with
  | nil => exact absurd h (by simp [splitLoop])
  | cons p l ih =>
    obtain ⟨u, a?⟩ := p
    simp only [splitLoop] at h
    by_cases hseen : u ∈ seen
    · rw [if_pos hseen] at h
      exact Or.inl (Except.error.inj h).symm
    · rw [if_neg hseen] at h
      cases ha : a? with
      | none =>
        rw [ha] at h
        exact Or.inr (Or.inl (Except.error.inj h).symm)
      | some a =>
        rw [ha] at h
        simp only at h
        by_cases hneg : a < 0
        · rw [if_pos hneg] at h
          exact Or.inr (Or.inr (Except.error.inj h).symm)
        · rw [if_neg hneg] at h
          cases hrec : splitLoop l (u :: seen) with
          | error e2 =>
            rw [hrec] at h
            simp only [Except.error.injEq] at h
            subst h
            exact ih (u :: seen) hrec
          | ok parsed1 => rw [hrec] at h; exact absurd h (by simp)

/-- Running the loop over a clean segment never aborts: an error of the rest of
the list, run with the accumulated userIDs set, is the error of the whole. -/
theorem splitLoop_append_error (xs rest : List (UserId × Option ℚ)) (seen : List UserId)
    (e : ApiError) (hnd : (xs.map Prod.fst).Nodup)
    (hvals : ∀ p ∈ xs, ∃ a, p.2 = some a ∧ 0 ≤ a)
    (hdisj : ∀ u ∈ xs.map Prod.fst, u ∉ seen)
    (h : splitLoop rest (seenAfter xs seen) = .error e) :
    splitLoop (xs ++ rest) seen = .error e := by
  induction xs generalizing seen with
  | nil => exact h
  | cons p xs ih =>
    obtain ⟨u, a?⟩ := p
    obtain ⟨a, ha, hann⟩ := hvals (u, a?) (by simp)
    simp only at ha
    simp only [List.map_cons, List.nodup_cons] at hnd
    rw [List.cons_append]
    simp only [splitLoop]
    rw [if_neg (hdisj u (by simp)), ha]
    simp only
    rw [if_neg (not_lt_of_le hann)]
    have hrec : splitLoop (xs ++ rest) (u :: seen) = .error e := by
      apply ih (u :: seen) hnd.2
      · intro q hq
        exact hvals q (by simp [hq])
      · intro v hv
        simp only [List.mem_cons, not_or]
        exact ⟨fun hvu => hnd.1 (hvu ▸ hv), hdisj v (by simp [hv])⟩
      · exact h
    rw [hrec]

theorem insertSplits_none_of_fail (w : WriteOracle) (eid : ExpenseId)
    (l : List (UserId × ℚ)) (i : Nat) (t : Tx)
    (h : ∃ j, j < l.length ∧ w.splitFails (i + j) = true) :
    insertSplits w eid l i t = none := by
  induction l generalizing i t with
  | nil =>
    obtain ⟨j, hj, -⟩ := h
    exact absurd hj (by simp)
  | cons p l ih =>
    obtain ⟨u, a⟩ := p
    rw [insertSplits]
    by_cases hf : w.splitFails i = true
    · rw [if_pos hf]
    · rw [if_neg hf]
      apply ih
      obtain ⟨j, hj, hjf⟩ := h
      cases j with
      | zero => exact absurd (by simpa using hjf) hf
      | succ j =>
        refine ⟨j, by simpa using hj, ?_⟩
        have : i + 1 + j = i + (j + 1) := by omega
        rw [this]
        exact hjf

theorem validateExpense_error_mem (s : Store) (r : UserId) (req : CreateExpenseRequest)
    (e : ApiError) (h : validateExpense s r req = .error e) : e ∈ preWriteErrors := by
  unfold validateExpense at h
  cases hta : req.totalAmount with
  | none =>
    rw [hta] at h
    rw [← Except.error.inj h]
    simp [preWriteErrors]
  | some t =>
    rw [hta] at h
    simp only at h
    by_cases h1 : t ≤ 0
    · rw [if_pos h1] at h
      rw [← Except.error.inj h]
      simp [preWriteErrors]
    · rw [if_neg h1] at h
      by_cases h2 : isGroupMember s req.groupId r = true
      · rw [if_neg (not_not_intro h2)] at h
        cases hsl : splitLoop req.splits [] with
        | error e2 =>
          rw [hsl] at h
          simp only [Except.error.injEq] at h
          subst h
          rcases splitLoop_error_mem req.splits [] e2 hsl with h3 | h3 | h3 <;>
            rw [h3] <;> simp [preWriteErrors]
        | ok parsed =>
          rw [hsl] at h
          simp only at h
          by_cases h3 : (parsed.map Prod.snd).sum = t
          · rw [if_neg (not_not_intro h3)] at h
            by_cases h4 : parsed.all (fun p => isGroupMember s req.groupId p.1) = true
            · rw [if_neg (not_not_intro h4)] at h
              exact absurd h (by simp)
            · rw [if_pos h4] at h
              rw [← Except.error.inj h]
              simp [preWriteErrors]
          · rw [if_pos h3] at h
            rw [← Except.error.inj h]
            simp [preWriteErrors]
      · rw [if_pos h2] at h
        rw [← Except.error.inj h]
        simp [preWriteErrors]

theorem validateExpense_ok_no_defect (s : Store) (r : UserId) (req : CreateExpenseRequest)
    (total : ℚ) (parsed : List (UserId × ℚ))
    (hv : validateExpense s r req = .ok (total, parsed)) : ¬ RequestDefect s req := by
  obtain ⟨hta, htot, -, hloop, hsum, hmem⟩ := validateExpense_ok s r req total parsed hv
  obtain ⟨hfst, hsnd, hnn, hnd, -⟩ := splitLoop_ok_spec req.splits [] parsed hloop
  intro hdef
  rcases hdef with ⟨t, ht, htle⟩ | hdup | ⟨p, hp, a, hpa, haneg⟩ |
    ⟨t, amts, ht, hmap, hsne⟩ | ⟨p, hp, hmemfalse⟩
  · rw [hta, Option.some.injEq] at ht
    rw [ht] at htot
    exact absurd htot (not_lt_of_le htle)
  · exact hdup hnd
  · have hp2 : p.2 ∈ parsed.map fun q => some q.2 := by
      rw [← hsnd]
      exact List.mem_map_of_mem Prod.snd hp
    obtain ⟨q, hq, hqe⟩ := List.mem_map.mp hp2
    rw [hpa, Option.some.injEq] at hqe
    exact absurd (hqe ▸ hnn q hq) (not_le_of_lt haneg)
  · rw [hta, Option.some.injEq] at ht
    have hinj : amts = parsed.map Prod.snd := by
      have hmm : amts.map some = (parsed.map Prod.snd).map some := by
        rw [← hmap, hsnd, List.map_map]
        rfl
      exact List.map_injective_iff.mpr (fun a b hab => Option.some.inj hab) hmm
    rw [hinj, hsum] at hsne
    exact hsne ht
  · have hp1 : p.1 ∈ parsed.map Prod.fst := by
      rw [hfst]
      exact List.mem_map_of_mem Prod.fst hp
    obtain ⟨q, hq, hqe⟩ := List.mem_map.mp hp1
    have := hmem q hq
    rw [hqe] at this
    rw [this] at hmemfalse
    exact absurd hmemfalse (by simp)

/-- A defective request is rejected with a pre-write error, independently of
the write oracle, leaving the store untouched. -/
theorem requestDefect_rejected (s : Store) (r : UserId) (req : CreateExpenseRequest)
    (hdef : RequestDefect s req) :
    ∃ e ∈ preWriteErrors, ∀ w, createExpense s r req w = (s, .error e) := by
  cases hv : validateExpense s r req with
  | error e =>
    exact ⟨e, validateExpense_error_mem s r req e hv,
      createExpense_of_validate_error s r req e hv⟩
  | ok v =>
    obtain ⟨total, parsed⟩ := v
    exact absurd hdef (validateExpense_ok_no_defect s r req total parsed hv)

/-! ### Direct rejection computations of CreateSettlement -/

theorem createSettlement_self (s : Store) (r : UserId) (req : CreateSettlementRequest)
    (f : Bool) (h0 : 0 < req.amount) (h1 : isGroupMember s req.groupId r = true)
    (h2 : isGroupMember s req.groupId req.fromUser = true)
    (h3 : isGroupMember s req.groupId req.toUser = true)
    (h4 : req.fromUser = req.toUser) :
    createSettlement s r req f = (s, .error .selfSettlement) := by
  unfold createSettlement
  rw [if_neg (not_le_of_lt h0), if_neg (not_not_intro h1), if_neg (not_not_intro h2),
    if_neg (not_not_intro h3), if_pos h4]

theorem createSettlement_from_nonmember (s : Store) (r : UserId)
    (req : CreateSettlementRequest) (f : Bool) (h0 : 0 < req.amount)
    (h1 : isGroupMember s req.groupId r = true)
    (h2 : isGroupMember s req.groupId req.fromUser = false) :
    createSettlement s r req f = (s, .error .fromUserNotMember) := by
  unfold createSettlement
  rw [if_neg (not_le_of_lt h0), if_neg (not_not_intro h1), if_pos (by simp [h2])]

theorem createSettlement_to_nonmember (s : Store) (r : UserId)
    (req : CreateSettlementRequest) (f : Bool) (h0 : 0 < req.amount)
    (h1 : isGroupMember s req.groupId r = true)
    (h2 : isGroupMember s req.groupId req.fromUser = true)
    (h3 : isGroupMember s req.groupId req.toUser = false) :
    createSettlement s r req f = (s, .error .toUserNotMember) := by
  unfold createSettlement
  rw [if_neg (not_le_of_lt h0), if_neg (not_not_intro h1), if_neg (not_not_intro h2),
    if_pos (by simp [h3])]

/-! ### The claims -/

/-- C1: CreateExpense accepts a request only when the split amounts sum to the
total under exact decimal (rational) equality: every accepted expense is stored
with splits summing exactly to its total, and a request whose parsed splits sum
differently is rejected with the sum-mismatch error before any write, for every
write oracle. -/
theorem C1_split_sum_exact :
    (∀ (s : Store) (r : UserId) (req : CreateExpenseRequest) (w : WriteOracle)
        (e : ExpenseRow) (splits : List SplitRow),
      (createExpense s r req w).2 = .ok (e, splits) →
        ((splits.map SplitRow.amount).sum = e.totalAmount ∧
          (createExpense s r req w).1.expenses = s.expenses ++ [e] ∧
          (createExpense s r req w).1.expenseSplits = s.expenseSplits ++ splits)) ∧
    (∀ (s : Store) (r : UserId) (req : CreateExpenseRequest) (total : ℚ)
        (parsed : List (UserId × ℚ)),
      req.totalAmount = some total → ¬ total ≤ 0 →
      isGroupMember s req.groupId r = true →
      splitLoop req.splits [] = .ok parsed →
      (parsed.map Prod.snd).sum ≠ total →
      ∀ w, createExpense s r req w = (s, .error .splitSumMismatch)) := by
  constructor
  · intro s r req w e splits h
    rcases createExpense_spec s r req w with ⟨e0, he⟩ | ⟨total, parsed, hv, he⟩
    · rw [he] at h
      exact absurd h (by simp)
    · rw [he] at h
      simp only [Except.ok.injEq] at h
      have hrow : (⟨s.nextExpenseId, req.groupId, req.description, total, r⟩ : ExpenseRow) = e :=
        congrArg Prod.fst h
      have hsps : (parsed.map fun p => SplitRow.mk s.nextExpenseId p.1 p.2) = splits :=
        congrArg Prod.snd h
      obtain ⟨-, -, -, -, hsum, -⟩ := validateExpense_ok s r req total parsed hv
      refine ⟨?_, ?_, ?_⟩
      · rw [← hsps, ← hrow, List.map_map]
        exact hsum
      · rw [he, ← hrow]
      · rw [he, ← hsps]
  · intro s r req total parsed hta hneg hmem hloop hne w
    have hval : validateExpense s r req = .error .splitSumMismatch := by
      unfold validateExpense
      rw [hta]
      simp only
      rw [if_neg hneg, if_neg (not_not_intro hmem), hloop]
      simp only
      rw [if_pos hne]
    exact createExpense_of_validate_error s r req _ hval w

theorem C1_witness :
    ((([⟨0, 0, 3⟩] : List SplitRow).map SplitRow.amount).sum
        = (ExpenseRow.mk 0 0 "one" 3 0).totalAmount ∧
      (createExpense storeA 0 ⟨0, "one", some 3, [(0, some 3)]⟩ allSucceed).1.expenses
        = storeA.expenses ++ [⟨0, 0, "one", 3, 0⟩] ∧
      (createExpense storeA 0 ⟨0, "one", some 3, [(0, some 3)]⟩ allSucceed).1.expenseSplits
        = storeA.expenseSplits ++ [⟨0, 0, 3⟩]) ∧
    createExpense storeA 0 ⟨0, "bad", some 2, [(0, some 3)]⟩ allSucceed
      = (storeA, .error .splitSumMismatch) :=
  ⟨C1_split_sum_exact.1 storeA 0 ⟨0, "one", some 3, [(0, some 3)]⟩ allSucceed
      ⟨0, 0, "one", 3, 0⟩ [⟨0, 0, 3⟩]
      (by norm_num [storeA, runOps, applyOp, createGroup, createExpense, validateExpense,
        splitLoop, isGroupMember, insertSplits, txCommit, allSucceed, initStore]),
   C1_split_sum_exact.2 storeA 0 ⟨0, "bad", some 2, [(0, some 3)]⟩ 2 [(0, 3)]
      rfl (by norm_num)
      (by norm_num [storeA, runOps, applyOp, createGroup, isGroupMember, initStore])
      (by norm_num [splitLoop]) (by norm_num) allSucceed⟩

/-- C2: on every store reachable by a sequence of operations from startup, the
balances of every group sum to exactly zero, both as the computed members map
and as any list GetBalances may emit. -/
theorem C2_balance_conservation :
    ∀ (us : List UserId) (ops : List Op) (g : GroupId),
      ((balancesMap (runOps us ops) g).map Prod.snd).sum = 0 ∧
      (∀ (requester : UserId) (resp : Store × Except ApiError (List (UserId × ℚ)))
          (l : List (UserId × ℚ)),
        getBalancesCanEmit (runOps us ops) requester g resp → resp.2 = .ok l →
          (l.map Prod.snd).sum = 0) := by
  intro us ops g
  have hzero := balances_sum_zero_of_inv (runOps us ops) (inv_runOps us ops) g
  refine ⟨hzero, ?_⟩
  intro requester resp l hemit hok
  obtain ⟨order, hperm, hresp⟩ := hemit
  subst hresp
  unfold getBalances at hok
  by_cases hm : isGroupMember (runOps us ops) g requester = true
  · rw [if_neg (not_not_intro hm)] at hok
    simp only [Except.ok.injEq] at hok
    subst hok
    rw [← hzero]
    exact (hperm.map Prod.snd).sum_eq
  · rw [if_pos hm] at hok
    exact absurd hok (by simp)

theorem C2_witness :
    ((balancesMap (runOps [0, 1] [.createGroup 0 "grp", .addMember 0 0 1]) 0).map
      Prod.snd).sum = 0 ∧
    ((balancesMap (runOps [0, 1] [.createGroup 0 "grp", .addMember 0 0 1]) 0).map
      Prod.snd).sum = 0 :=
  ⟨(C2_balance_conservation [0, 1] [.createGroup 0 "grp", .addMember 0 0 1] 0).1,
   (C2_balance_conservation [0, 1] [.createGroup 0 "grp", .addMember 0 0 1] 0).2 0
      (getBalances (runOps [0, 1] [.createGroup 0 "grp", .addMember 0 0 1]) 0 0
        (balancesMap (runOps [0, 1] [.createGroup 0 "grp", .addMember 0 0 1]) 0))
      (balancesMap (runOps [0, 1] [.createGroup 0 "grp", .addMember 0 0 1]) 0)
      ⟨balancesMap (runOps [0, 1] [.createGroup 0 "grp", .addMember 0 0 1]) 0,
        List.Perm.refl _, rfl⟩
      (by norm_num [getBalances, runOps, applyOp, createGroup, addMember, isGroupMember,
        userExists, initStore])⟩

/-- C3: whenever CreateExpense fails - in particular when a split insert fails
partway through the transaction - no expense row and no split row of the
attempt persists: the store after the call is exactly the store before it, and
a split-insert failure under an otherwise healthy oracle is guaranteed to be
reported as such. -/
theorem C3_all_or_nothing :
    (∀ (s : Store) (r : UserId) (req : CreateExpenseRequest) (w : WriteOracle) (e : ApiError),
      (createExpense s r req w).2 = .error e → (createExpense s r req w).1 = s) ∧
    (∀ (s : Store) (r : UserId) (req : CreateExpenseRequest) (w : WriteOracle)
        (total : ℚ) (parsed : List (UserId × ℚ)),
      validateExpense s r req = .ok (total, parsed) →
      w.beginFails = false → w.headerFails = false →
      (∃ i, i < parsed.length ∧ w.splitFails i = true) →
      createExpense s r req w = (s, .error .splitInsertFailed)) := by
  constructor
  · intro s r req w e h
    rcases createExpense_spec s r req w with ⟨e0, he⟩ | ⟨total, parsed, hv, he⟩
    · rw [he]
    · rw [he] at h
      exact absurd h (by simp)
  · intro s r req w total parsed hv hb hh hex
    unfold createExpense
    rw [hv]
    simp only [hb, hh, Bool.false_eq_true, if_false]
    rw [insertSplits_none_of_fail w s.nextExpenseId parsed 0 _
      (by obtain ⟨i, hi, hif⟩ := hex; exact ⟨i, hi, by simpa using hif⟩)]

theorem C3_witness :
    createExpense storeABCD 0 quadReq failThird = (storeABCD, .error .splitInsertFailed) ∧
    (createExpense storeABCD 0 quadReq failThird).1 = storeABCD :=
  have hrun : createExpense storeABCD 0 quadReq failThird
      = (storeABCD, .error .splitInsertFailed) :=
    C3_all_or_nothing.2 storeABCD 0 quadReq failThird 10 [(0, 1), (1, 2), (2, 3), (3, 4)]
      (by norm_num [storeABCD, quadReq, runOps, applyOp, createGroup, addMember,
        validateExpense, splitLoop, isGroupMember, userExists, initStore])
      rfl rfl ⟨2, by norm_num, rfl⟩
  ⟨hrun,
   C3_all_or_nothing.1 storeABCD 0 quadReq failThird .splitInsertFailed
     (by rw [hrun])⟩

/-- C4: a request violating any of the validation rules (non-positive total,
duplicate participant, negative split amount, split-sum mismatch, or a
non-member participant) is rejected with a pre-write error; the result is the
untouched store and does not depend on the write oracle, so no database write
occurs. -/
theorem C4_rejection_before_write :
    ∀ (s : Store) (r : UserId) (req : CreateExpenseRequest),
      RequestDefect s req →
      ∃ e ∈ preWriteErrors, ∀ w, createExpense s r req w = (s, .error e) := by
  intro s r req hdef
  exact requestDefect_rejected s r req hdef

theorem C4_witness :
    ∃ e ∈ preWriteErrors,
      ∀ w, createExpense storeAB 0 ⟨0, "neg", some 2, [(0, some (-1)), (1, some 3)]⟩ w
        = (storeAB, .error e) :=
  C4_rejection_before_write storeAB 0 ⟨0, "neg", some 2, [(0, some (-1)), (1, some 3)]⟩
    (Or.inr (Or.inr (Or.inl ⟨(0, some (-1)), by simp, -1, rfl, by norm_num⟩)))

/-- C5: in a group with members A = 0, B = 1, C = 2 and no prior facts, the
expense of 100.00 paid by A with splits 33.33 / 33.33 / 33.34 is accepted, and
GetBalances then reports A at +66.67, B at -33.33 and C at -33.34: the payer is
credited the full total and every split participant, the payer included, is
debited their split (positive means owed to the user). -/
theorem C5_scenario_balances :
    (createExpense storeABC 0 dinnerReq allSucceed).2
      = .ok (⟨0, 0, "dinner", 100, 0⟩,
             [⟨0, 0, 3333/100⟩, ⟨0, 1, 3333/100⟩, ⟨0, 2, 3334/100⟩]) ∧
    goMapLookup (balancesMap storeAfterDinner 0) 0 = some (6667/100) ∧
    goMapLookup (balancesMap storeAfterDinner 0) 1 = some (-(3333/100)) ∧
    goMapLookup (balancesMap storeAfterDinner 0) 2 = some (-(3334/100)) := by
  norm_num [storeAfterDinner, storeABC, dinnerReq, runOps, applyOp, createGroup, addMember,
    createExpense, validateExpense, splitLoop, isGroupMember, userExists, insertSplits,
    txCommit, allSucceed, initStore, balancesMap, initMembersMap, applyExpenses, applySplits,
    applySettlements, memberIds, splitInGroup, goMapInsertZero, goMapAdjust, goMapLookup]

/-- C6 counterexample: starting from the scenario state (A at +66.67, B at
-33.33, C at -33.34), B's accepted settlement of 20.00 to A makes GetBalances
report A at +86.67 and B at -53.33: B's balance does not increase by 20.00 as
the claim states, it decreases by 20.00 (the code debits from_user). -/
theorem C6_counterexample :
    (createSettlement storeAfterDinner 1 settleReq false).2 = .ok ⟨0, 1, 0, 20⟩ ∧
    goMapLookup (balancesMap storeAfterSettle 0) 0 = some (8667/100) ∧
    goMapLookup (balancesMap storeAfterSettle 0) 1 = some (-(5333/100)) ∧
    goMapLookup (balancesMap storeAfterSettle 0) 1 ≠ some (-(3333/100) + 20) := by
  norm_num [storeAfterSettle, storeAfterDinner, storeABC, dinnerReq, settleReq, runOps,
    applyOp, createGroup, addMember, createExpense, createSettlement, validateExpense,
    splitLoop, isGroupMember, userExists, insertSplits, txCommit, allSucceed, initStore,
    balancesMap, initMembersMap, applyExpenses, applySplits, applySettlements, memberIds,
    splitInGroup, goMapInsertZero, goMapAdjust, goMapLookup]

/-- C6 (amended): after an accepted settlement, the balance GetBalances reports
for to_user increases by the settlement amount while the balance reported for
from_user decreases by the settlement amount - the code debits the settlement
payer and credits the receiver. -/
theorem C6_settlement_direction :
    ∀ (s : Store) (r : UserId) (req : CreateSettlementRequest) (f : Bool)
      (st : SettlementRow),
      (createSettlement s r req f).2 = .ok st →
      ∃ bf bt : ℚ,
        goMapLookup (balancesMap s st.groupId) st.fromUser = some bf ∧
        goMapLookup (balancesMap s st.groupId) st.toUser = some bt ∧
        goMapLookup (balancesMap (createSettlement s r req f).1 st.groupId) st.fromUser
          = some (bf - st.amount) ∧
        goMapLookup (balancesMap (createSettlement s r req f).1 st.groupId) st.toUser
          = some (bt + st.amount) := by
  intro s r req f st h
  rcases createSettlement_spec s r req f with ⟨e0, he⟩ | ⟨-, -, hf, ht, hne, -, he⟩
  · rw [he] at h
    exact absurd h (by simp)
  · rw [he] at h
    simp only [Except.ok.injEq] at h
    subst h
    simp only at hf ht hne ⊢
    obtain ⟨bf, hbf⟩ := goMapLookup_of_mem_goKeys _ _
      ((mem_goKeys_balancesMap s req.groupId req.fromUser).mpr hf)
    obtain ⟨bt, hbt⟩ := goMapLookup_of_mem_goKeys _ _
      ((mem_goKeys_balancesMap s req.groupId req.toUser).mpr ht)
    refine ⟨bf, bt, hbf, hbt, ?_, ?_⟩
    · rw [he]
      simp only
      rw [balancesMap_append_settlement s _ req.groupId rfl]
      simp only
      rw [goMapLookup_adjust, if_neg hne, goMapLookup_adjust, if_pos rfl, hbf]
      rfl
    · rw [he]
      simp only
      rw [balancesMap_append_settlement s _ req.groupId rfl]
      simp only
      rw [goMapLookup_adjust, if_pos rfl, goMapLookup_adjust,
        if_neg (fun hh => hne hh.symm), hbt]
      rfl

theorem C6_witness :
    ∃ bf bt : ℚ,
      goMapLookup (balancesMap storeAfterDinner
        (SettlementRow.mk 0 1 0 20).groupId) (SettlementRow.mk 0 1 0 20).fromUser
        = some bf ∧
      goMapLookup (balancesMap storeAfterDinner
        (SettlementRow.mk 0 1 0 20).groupId) (SettlementRow.mk 0 1 0 20).toUser
        = some bt ∧
      goMapLookup (balancesMap (createSettlement storeAfterDinner 1 settleReq false).1
        (SettlementRow.mk 0 1 0 20).groupId) (SettlementRow.mk 0 1 0 20).fromUser
        = some (bf - (SettlementRow.mk 0 1 0 20).amount) ∧
      goMapLookup (balancesMap (createSettlement storeAfterDinner 1 settleReq false).1
        (SettlementRow.mk 0 1 0 20).groupId) (SettlementRow.mk 0 1 0 20).toUser
        = some (bt + (SettlementRow.mk 0 1 0 20).amount) :=
  C6_settlement_direction storeAfterDinner 1 settleReq false ⟨0, 1, 0, 20⟩
    (by norm_num [storeAfterDinner, storeABC, dinnerReq, settleReq, runOps, applyOp,
      createGroup, addMember, createExpense, createSettlement, validateExpense, splitLoop,
      isGroupMember, userExists, insertSplits, txCommit, allSucceed, initStore])

/-- C7 counterexample: with two members both at balance zero, the same stored
facts admit two GetBalances responses that differ as lists (Go map iteration
order is unspecified), so two calls need not return bit-identical results. -/
theorem C7_counterexample :
    getBalancesCanEmit storeAB 0 0 (storeAB, .ok [(0, 0), (1, 0)]) ∧
    getBalancesCanEmit storeAB 0 0 (storeAB, .ok [(1, 0), (0, 0)]) ∧
    (storeAB, (.ok [(0, 0), (1, 0)] : Except ApiError (List (UserId × ℚ))))
      ≠ (storeAB, .ok [(1, 0), (0, 0)]) := by
  have hbal : balancesMap storeAB 0 = [(0, 0), (1, 0)] := by
    norm_num [storeAB, runOps, applyOp, createGroup, addMember, isGroupMember, userExists,
      initStore, balancesMap, initMembersMap, applyExpenses, applySplits, applySettlements,
      memberIds, splitInGroup, goMapInsertZero]
  have hmem : getBalances storeAB 0 0 = fun order => (storeAB, .ok order) := by
    funext order
    unfold getBalances
    rw [if_neg (not_not_intro (by norm_num [storeAB, runOps, applyOp, createGroup,
      addMember, isGroupMember, userExists, initStore]))]
  refine ⟨⟨[(0, 0), (1, 0)], by rw [hbal], by rw [hmem]⟩,
    ⟨[(1, 0), (0, 0)], by rw [hbal]; exact List.Perm.swap (0, 0) (1, 0) [], by rw [hmem]⟩,
    ?_⟩
  intro hcontra
  have := congrArg Prod.snd hcontra
  simp only [Except.ok.injEq, List.cons.injEq, Prod.mk.injEq] at this
  exact absurd this.1.1 (by norm_num)

/-- C7 (amended): GetBalances writes nothing - the store in the response is the
store it was called on - and any two responses over the same stored facts agree
up to reordering: the same rejection, or lists of the same entries in a
possibly different (Go map iteration) order. -/
theorem C7_idempotent_read :
    ∀ (s : Store) (r : UserId) (g : GroupId)
      (r1 r2 : Store × Except ApiError (List (UserId × ℚ))),
      getBalancesCanEmit s r g r1 → getBalancesCanEmit s r g r2 →
      r1.1 = s ∧ r2.1 = s ∧
      (∀ l1 l2, r1.2 = .ok l1 → r2.2 = .ok l2 → l1.Perm l2) ∧
      (∀ e, r1.2 = .error e ↔ r2.2 = .error e) := by
  intro s r g r1 r2 h1 h2
  obtain ⟨o1, hp1, he1⟩ := h1
  obtain ⟨o2, hp2, he2⟩ := h2
  subst he1
  subst he2
  unfold getBalances
  by_cases hm : isGroupMember s g r = true
  · simp only [if_neg (not_not_intro hm)]
    refine ⟨by trivial, by trivial, ?_, ?_⟩
    · intro l1 l2 hl1 hl2
      simp only [Except.ok.injEq] at hl1 hl2
      subst hl1
      subst hl2
      exact hp1.trans hp2.symm
    · intro e
      simp
  · simp only [if_pos hm]
    refine ⟨by trivial, by trivial, ?_, ?_⟩
    · intro l1 l2 hl1 hl2
      exact absurd hl1 (by simp)
    · intro e
      simp

theorem C7_witness :
    (storeAB, (.ok [(0, 0), (1, 0)] : Except ApiError (List (UserId × ℚ)))).1 = storeAB ∧
    (storeAB, (.ok [(1, 0), (0, 0)] : Except ApiError (List (UserId × ℚ)))).1 = storeAB ∧
    (∀ l1 l2, (storeAB, (.ok [(0, 0), (1, 0)] :
        Except ApiError (List (UserId × ℚ)))).2 = .ok l1 →
      (storeAB, (.ok [(1, 0), (0, 0)] :
        Except ApiError (List (UserId × ℚ)))).2 = .ok l2 → l1.Perm l2) ∧
    (∀ e, (storeAB, (.ok [(0, 0), (1, 0)] :
        Except ApiError (List (UserId × ℚ)))).2 = .error e ↔
      (storeAB, (.ok [(1, 0), (0, 0)] :
        Except ApiError (List (UserId × ℚ)))).2 = .error e) :=
  C7_idempotent_read storeAB 0 0 _ _
    ⟨[(0, 0), (1, 0)],
      by rw [show balancesMap storeAB 0 = [(0, 0), (1, 0)] from by
        norm_num [storeAB, runOps, applyOp, createGroup, addMember, isGroupMember,
          userExists, initStore, balancesMap, initMembersMap, applyExpenses, applySplits,
          applySettlements, memberIds, splitInGroup, goMapInsertZero]],
      by unfold getBalances
         rw [if_neg (not_not_intro (by norm_num [storeAB, runOps, applyOp, createGroup,
           addMember, isGroupMember, userExists, initStore]))]⟩
    ⟨[(1, 0), (0, 0)],
      by rw [show balancesMap storeAB 0 = [(0, 0), (1, 0)] from by
          norm_num [storeAB, runOps, applyOp, createGroup, addMember, isGroupMember,
            userExists, initStore, balancesMap, initMembersMap, applyExpenses, applySplits,
            applySettlements, memberIds, splitInGroup, goMapInsertZero]]
         exact List.Perm.swap (0, 0) (1, 0) [],
      by unfold getBalances
         rw [if_neg (not_not_intro (by norm_num [storeAB, runOps, applyOp, createGroup,
           addMember, isGroupMember, userExists, initStore]))]⟩

/-- C8 counterexample: the request with total 2 and splits user1 at 5 then
user1 again at -3 violates both the non-negative-amount rule and the
no-duplicate rule, yet CreateExpense rejects it with the duplicate error, not
the negative-amount error the claimed check order (amounts before duplicates)
would produce. -/
theorem C8_counterexample :
    (∃ p ∈ ([(1, some 5), (1, some (-3))] : List (UserId × Option ℚ)),
      ∃ a : ℚ, p.2 = some a ∧ a < 0) ∧
    (createExpense storeAB 0 ⟨0, "dup", some 2, [(1, some 5), (1, some (-3))]⟩
      allSucceed).2 = .error .duplicateSplitUser ∧
    ApiError.duplicateSplitUser ≠ ApiError.negativeSplitAmount := by
  refine ⟨⟨(1, some (-3)), by norm_num, -3, rfl, by norm_num⟩, ?_, by decide⟩
  norm_num [storeAB, runOps, applyOp, createGroup, addMember, createExpense,
    validateExpense, splitLoop, isGroupMember, userExists, initStore]

/-- C8 (amended): the checks of CreateExpense run in this order: total > 0
first; then one pass over the splits in request order where, for each split,
the duplicate check precedes the negative-amount check; then the exact sum
check; then membership of every split user. So when several rules are
violated, the reported reason is that of the first split at which the scan
stops - with the duplicate rule winning inside a single split - then sum
mismatch, then non-membership. -/
theorem C8_check_order :
    (∀ (s : Store) (r : UserId) (req : CreateExpenseRequest) (t : ℚ),
      req.totalAmount = some t → t ≤ 0 →
      ∀ w, createExpense s r req w = (s, .error .nonPositiveTotal)) ∧
    (∀ (s : Store) (r : UserId) (req : CreateExpenseRequest) (t : ℚ)
        (xs ys : List (UserId × Option ℚ)) (u : UserId) (a? : Option ℚ),
      req.totalAmount = some t → ¬ t ≤ 0 → isGroupMember s req.groupId r = true →
      req.splits = xs ++ (u, a?) :: ys → CleanSplits xs → u ∈ xs.map Prod.fst →
      ∀ w, createExpense s r req w = (s, .error .duplicateSplitUser)) ∧
    (∀ (s : Store) (r : UserId) (req : CreateExpenseRequest) (t a : ℚ)
        (xs ys : List (UserId × Option ℚ)) (u : UserId),
      req.totalAmount = some t → ¬ t ≤ 0 → isGroupMember s req.groupId r = true →
      req.splits = xs ++ (u, some a) :: ys → CleanSplits xs → u ∉ xs.map Prod.fst →
      a < 0 →
      ∀ w, createExpense s r req w = (s, .error .negativeSplitAmount)) ∧
    (∀ (s : Store) (r : UserId) (req : CreateExpenseRequest) (t : ℚ)
        (parsed : List (UserId × ℚ)),
      req.totalAmount = some t → ¬ t ≤ 0 → isGroupMember s req.groupId r = true →
      splitLoop req.splits [] = .ok parsed → (parsed.map Prod.snd).sum ≠ t →
      ∀ w, createExpense s r req w = (s, .error .splitSumMismatch)) ∧
    (∀ (s : Store) (r : UserId) (req : CreateExpenseRequest) (t : ℚ)
        (parsed : List (UserId × ℚ)),
      req.totalAmount = some t → ¬ t ≤ 0 → isGroupMember s req.groupId r = true →
      splitLoop req.splits [] = .ok parsed → (parsed.map Prod.snd).sum = t →
      (∃ p ∈ parsed, isGroupMember s req.groupId p.1 = false) →
      ∀ w, createExpense s r req w = (s, .error .splitUserNotMember)) := by
  refine ⟨?_, ?_, ?_, ?_, ?_⟩
  · intro s r req t hta hle w
    apply createExpense_of_validate_error
    unfold validateExpense
    rw [hta]
    simp only
    rw [if_pos hle]
  · intro s r req t xs ys u a? hta hpos hmem hsplits hclean hu w
    apply createExpense_of_validate_error
    unfold validateExpense
    rw [hta]
    simp only
    rw [if_neg hpos, if_neg (not_not_intro hmem), hsplits,
      splitLoop_append_error xs ((u, a?) :: ys) [] _ hclean.1 hclean.2 (by simp) ?hdup]
    case hdup =>
      simp only [splitLoop]
      rw [if_pos ((mem_seenAfter xs [] u).mpr (Or.inl hu))]
  · intro s r req t a xs ys u hta hpos hmem hsplits hclean hu haneg w
    apply createExpense_of_validate_error
    unfold validateExpense
    rw [hta]
    simp only
    rw [if_neg hpos, if_neg (not_not_intro hmem), hsplits,
      splitLoop_append_error xs ((u, some a) :: ys) [] _ hclean.1 hclean.2 (by simp) ?hneg]
    case hneg =>
      simp only [splitLoop]
      rw [if_neg (fun hin => by
        rcases (mem_seenAfter xs [] u).mp hin with hin | hin
        · exact hu hin
        · simp at hin)]
      rw [if_pos haneg]
  · intro s r req t parsed hta hpos hmem hloop hne w
    apply createExpense_of_validate_error
    unfold validateExpense
    rw [hta]
    simp only
    rw [if_neg hpos, if_neg (not_not_intro hmem), hloop]
    simp only
    rw [if_pos hne]
  · intro s r req t parsed hta hpos hmem hloop hsum hnm w
    apply createExpense_of_validate_error
    unfold validateExpense
    rw [hta]
    simp only
    rw [if_neg hpos, if_neg (not_not_intro hmem), hloop]
    simp only
    rw [if_neg (not_not_intro hsum), if_pos ?hall]
    case hall =>
      intro hall
      obtain ⟨p, hp, hpf⟩ := hnm
      have := List.all_eq_true.mp hall p hp
      rw [this] at hpf
      exact absurd hpf (by simp)

theorem C8_witness :
    createExpense storeAB 0 ⟨0, "dup", some 2, [(1, some 5), (1, some 7)]⟩ allSucceed
      = (storeAB, .error .duplicateSplitUser) ∧
    createExpense storeAB 0 ⟨0, "neg", some 2, [(1, some 5), (0, some (-3))]⟩ allSucceed
      = (storeAB, .error .negativeSplitAmount) :=
  ⟨(C8_check_order.2.1) storeAB 0 ⟨0, "dup", some 2, [(1, some 5), (1, some 7)]⟩ 2
      [(1, some 5)] [] 1 (some 7) rfl (by norm_num)
      (by norm_num [storeAB, runOps, applyOp, createGroup, addMember, isGroupMember,
        userExists, initStore])
      rfl ⟨by simp, fun p hp => by
        simp only [List.mem_singleton] at hp
        exact ⟨5, by rw [hp], by norm_num⟩⟩
      (by simp) allSucceed,
   (C8_check_order.2.2.1) storeAB 0 ⟨0, "neg", some 2, [(1, some 5), (0, some (-3))]⟩ 2
      (-3) [(1, some 5)] [] 0 rfl (by norm_num)
      (by norm_num [storeAB, runOps, applyOp, createGroup, addMember, isGroupMember,
        userExists, initStore])
      rfl ⟨by simp, fun p hp => by
        simp only [List.mem_singleton] at hp
        exact ⟨5, by rw [hp], by norm_num⟩⟩
      (by simp) (by norm_num) allSucceed⟩

/-- C9: CreateSettlement inserts its single row only after confirming that
from_user and to_user are distinct members of the group; with members and a
positive amount, from_user equal to to_user is rejected with the
self-settlement error; a non-member from_user (or to_user) is rejected with
the corresponding non-member error; and every rejection leaves the store
unchanged. -/
theorem C9_settlement_checks :
    (∀ (s : Store) (r : UserId) (req : CreateSettlementRequest) (f : Bool)
        (st : SettlementRow),
      (createSettlement s r req f).2 = .ok st →
        isGroupMember s req.groupId req.fromUser = true ∧
        isGroupMember s req.groupId req.toUser = true ∧
        req.fromUser ≠ req.toUser ∧
        st = ⟨req.groupId, req.fromUser, req.toUser, req.amount⟩ ∧
        (createSettlement s r req f).1 = { s with settlements := s.settlements ++ [st] }) ∧
    (∀ (s : Store) (r : UserId) (req : CreateSettlementRequest) (f : Bool),
      0 < req.amount → isGroupMember s req.groupId r = true →
      isGroupMember s req.groupId req.fromUser = true →
      isGroupMember s req.groupId req.toUser = true →
      req.fromUser = req.toUser →
      createSettlement s r req f = (s, .error .selfSettlement)) ∧
    (∀ (s : Store) (r : UserId) (req : CreateSettlementRequest) (f : Bool),
      0 < req.amount → isGroupMember s req.groupId r = true →
      isGroupMember s req.groupId req.fromUser = false →
      createSettlement s r req f = (s, .error .fromUserNotMember)) ∧
    (∀ (s : Store) (r : UserId) (req : CreateSettlementRequest) (f : Bool),
      0 < req.amount → isGroupMember s req.groupId r = true →
      isGroupMember s req.groupId req.fromUser = true →
      isGroupMember s req.groupId req.toUser = false →
      createSettlement s r req f = (s, .error .toUserNotMember)) ∧
    (∀ (s : Store) (r : UserId) (req : CreateSettlementRequest) (f : Bool) (e : ApiError),
      (createSettlement s r req f).2 = .error e → (createSettlement s r req f).1 = s) := by
  refine ⟨?_, ?_, ?_, ?_, ?_⟩
  · intro s r req f st h
    rcases createSettlement_spec s r req f with ⟨e0, he⟩ | ⟨-, -, hf, ht, hne, -, he⟩
    · rw [he] at h
      exact absurd h (by simp)
    · rw [he] at h
      simp only [Except.ok.injEq] at h
      subst h
      exact ⟨hf, ht, hne, rfl, by rw [he]⟩
  · intro s r req f h0 h1 h2 h3 h4
    exact createSettlement_self s r req f h0 h1 h2 h3 h4
  · intro s r req f h0 h1 h2
    exact createSettlement_from_nonmember s r req f h0 h1 h2
  · intro s r req f h0 h1 h2 h3
    exact createSettlement_to_nonmember s r req f h0 h1 h2 h3
  · intro s r req f e h
    rcases createSettlement_spec s r req f with ⟨e0, he⟩ | ⟨-, -, -, -, -, -, he⟩
    · rw [he]
    · rw [he] at h
      exact absurd h (by simp)

theorem C9_witness :
    createSettlement storeAB 0 ⟨0, 1, 1, 5⟩ false = (storeAB, .error .selfSettlement) ∧
    createSettlement storeAB 0 ⟨0, 7, 1, 5⟩ false = (storeAB, .error .fromUserNotMember) :=
  ⟨(C9_settlement_checks.2.1) storeAB 0 ⟨0, 1, 1, 5⟩ false (by norm_num)
      (by norm_num [storeAB, runOps, applyOp, createGroup, addMember, isGroupMember,
        userExists, initStore])
      (by norm_num [storeAB, runOps, applyOp, createGroup, addMember, isGroupMember,
        userExists, initStore])
      (by norm_num [storeAB, runOps, applyOp, createGroup, addMember, isGroupMember,
        userExists, initStore])
      rfl,
   (C9_settlement_checks.2.2.1) storeAB 0 ⟨0, 7, 1, 5⟩ false (by norm_num)
      (by norm_num [storeAB, runOps, applyOp, createGroup, addMember, isGroupMember,
        userExists, initStore])
      (by norm_num [storeAB, runOps, applyOp, createGroup, addMember, isGroupMember,
        userExists, initStore])⟩

/-- C10: GetBalances silently skips every stored fact leg whose referenced user
is not a current member: the returned mapping covers exactly the current
members; an appended expense row with a non-member payer (and no splits of its
own) leaves the computed map unchanged; an appended split row with a
non-member user leaves it unchanged; and of an appended settlement only the
legs whose party is a member take effect. -/
theorem C10_skip_nonmember_facts :
    (∀ (s : Store) (g : GroupId) (u : UserId),
      u ∈ goKeys (balancesMap s g) ↔ isGroupMember s g u = true) ∧
    (∀ (s : Store) (g : GroupId) (e : ExpenseRow),
      e.groupId = g → isGroupMember s g e.paidBy = false →
      (∀ sp ∈ s.expenseSplits, sp.expenseId ≠ e.id) →
      balancesMap { s with expenses := s.expenses ++ [e] } g = balancesMap s g) ∧
    (∀ (s : Store) (g : GroupId) (sp : SplitRow),
      isGroupMember s g sp.userId = false →
      balancesMap { s with expenseSplits := s.expenseSplits ++ [sp] } g = balancesMap s g) ∧
    (∀ (s : Store) (g : GroupId) (st : SettlementRow),
      st.groupId = g → isGroupMember s g st.fromUser = false →
      balancesMap { s with settlements := s.settlements ++ [st] } g
        = goMapAdjust (balancesMap s g) st.toUser (· + st.amount)) ∧
    (∀ (s : Store) (g : GroupId) (st : SettlementRow),
      st.groupId = g → isGroupMember s g st.fromUser = false →
      isGroupMember s g st.toUser = false →
      balancesMap { s with settlements := s.settlements ++ [st] } g = balancesMap s g) := by
  refine ⟨fun s g u => mem_goKeys_balancesMap s g u, ?_, ?_, ?_, ?_⟩
  · intro s g e hg hpm hfresh
    rw [balancesMap_append_expense s e g hfresh, if_pos (by simp [hg]),
      goMapAdjust_not_mem _ _ _ (fun hmem => by
        rw [goKeys_applyExpenses, goKeys_initMembersMap] at hmem
        rw [hmem] at hpm
        exact absurd hpm (by simp))]
    rfl
  · intro s g sp hum
    rw [balancesMap_append_split s sp g]
    by_cases hc : splitInGroup s g sp = true
    · rw [if_pos hc,
        goMapAdjust_not_mem _ _ _ (fun hmem => by
          rw [goKeys_applySplits, goKeys_applyExpenses, goKeys_initMembersMap] at hmem
          rw [hmem] at hum
          exact absurd hum (by simp))]
      rfl
    · rw [if_neg hc]
  · intro s g st hg hfm
    have hinner : goMapAdjust (balancesMap s g) st.fromUser (· - st.amount)
        = balancesMap s g :=
      goMapAdjust_not_mem _ _ _ (fun hmem => by
        rw [mem_goKeys_balancesMap] at hmem
        rw [hmem] at hfm
        exact absurd hfm (by simp))
    rw [balancesMap_append_settlement s st g hg, hinner]
  · intro s g st hg hfm htm
    have hinner : goMapAdjust (balancesMap s g) st.fromUser (· - st.amount)
        = balancesMap s g :=
      goMapAdjust_not_mem _ _ _ (fun hmem => by
        rw [mem_goKeys_balancesMap] at hmem
        rw [hmem] at hfm
        exact absurd hfm (by simp))
    have houter : goMapAdjust (balancesMap s g) st.toUser (· + st.amount)
        = balancesMap s g :=
      goMapAdjust_not_mem _ _ _ (fun hmem => by
        rw [mem_goKeys_balancesMap] at hmem
        rw [hmem] at htm
        exact absurd htm (by simp))
    rw [balancesMap_append_settlement s st g hg, hinner, houter]

theorem C10_witness :
    balancesMap { storeAB with
      expenseSplits := storeAB.expenseSplits ++ [SplitRow.mk 0 7 5] } 0
      = balancesMap storeAB 0 ∧
    balancesMap { storeAB with
      settlements := storeAB.settlements ++ [SettlementRow.mk 0 7 9 5] } 0
      = balancesMap storeAB 0 :=
  ⟨(C10_skip_nonmember_facts.2.2.1) storeAB 0 ⟨0, 7, 5⟩
      (by norm_num [storeAB, runOps, applyOp, createGroup, addMember, isGroupMember,
        userExists, initStore]),
   (C10_skip_nonmember_facts.2.2.2.2) storeAB 0 ⟨0, 7, 9, 5⟩ rfl
      (by norm_num [storeAB, runOps, applyOp, createGroup, addMember, isGroupMember,
        userExists, initStore])
      (by norm_num [storeAB, runOps, applyOp, createGroup, addMember, isGroupMember,
        userExists, initStore])⟩

end FinanceManager
